import Mathlib

/-!
Verification of the request-assembly / response-reassembly pipeline of the
`nixtla` client (`nixtla/nixtla_client.py`) against its specification.

The Python functions under scrutiny are shallowly embedded as executable Lean
definitions: numpy flat buffers become `List`s, dictionaries become structures
or association lists, machine floats in the payload-sanitization step become a
symbolic value type (`nan` / `±inf` / finite rational), and fallible code
returns `Except`.
-/

namespace NixtlaClient

/-! ## Transport layer: payload sizing and compression (`_make_request`, lines 855-867)

`content_size_mb = len(content) / 2**20`; a float quotient whose comparisons
with 200 and 1 are exact because the divisor is a power of two, so they are
embedded as exact integer comparisons on the byte count. -/

def MiB : Nat := 2 ^ 20

/-- `math.ceil(content_size_mb / 200)`, i.e. the ceiling of `n / (200 MiB)`. -/
def requiredPartitions (n : Nat) : Nat := (n + 200 * MiB - 1) / (200 * MiB)

structure OutboundBody where
  compressed : Bool
  contentEncodingHeader : Option String
deriving Repr, DecidableEq

/-- The size-dependent part of `_make_request` (lines 855-867): serialized byte
count `n` either aborts (too large, before any send), is zstd-compressed with a
`content-encoding: zstd` header, or is sent as-is. -/
def prepareOutboundBody (n : Nat) : Except String OutboundBody :=
  if 200 * MiB < n then
    Except.error
      ("The payload is too large. Set num_partitions=" ++ toString (requiredPartitions n))
  else if MiB < n then
    Except.ok { compressed := true, contentEncodingHeader := some "zstd" }
  else
    Except.ok { compressed := false, contentEncodingHeader := none }

/-! ## Transport layer: float sanitization (`_make_request`, lines 831-844)

`ensure_contiguous_if_array` runs
`np.nan_to_num(np.ascontiguousarray(x, dtype=np.float32), nan=nan,
posinf=float32.max, neginf=float32.min)` on floating arrays and only
`np.ascontiguousarray` (value-preserving) on the rest.  Array elements are
embedded symbolically; the float64→float32 cast keeps `nan`/`±inf`, overflows
finite values past the round-to-nearest boundary `2^128 - 2^103` to `±inf`,
and rounds in-range finite values by a rounding function passed explicitly. -/

inductive FVal where
  | nan
  | posinf
  | neginf
  | finite (q : ℚ)
deriving Repr, DecidableEq

/-- `np.finfo(np.float32).max = (2 - 2^-23) * 2^127`. -/
def float32Max : ℚ := (2 - (2 ^ 23 : ℚ)⁻¹) * 2 ^ 127

/-- `np.finfo(np.float32).min`. -/
def float32Min : ℚ := -float32Max

/-- Finite float64 values at or beyond this magnitude become `±inf` when cast
to float32 under round-to-nearest-even. -/
def float32OverflowBound : ℚ := 2 ^ 128 - 2 ^ 103

/-- `np.ascontiguousarray(x, dtype=np.float32)` elementwise: the float64 to
float32 cast. `round32` is the in-range round-to-nearest function. -/
def castFloat32 (round32 : ℚ → ℚ) : FVal → FVal
  | FVal.nan => FVal.nan
  | FVal.posinf => FVal.posinf
  | FVal.neginf => FVal.neginf
  | FVal.finite q =>
    if float32OverflowBound ≤ q then FVal.posinf
    else if q ≤ -float32OverflowBound then FVal.neginf
    else FVal.finite (round32 q)

/-- `np.nan_to_num(·, nan=nanv, posinf=posv, neginf=negv)` elementwise. -/
def nanToNum (nanv posv negv : FVal) : FVal → FVal
  | FVal.nan => nanv
  | FVal.posinf => posv
  | FVal.neginf => negv
  | FVal.finite q => FVal.finite q

inductive NpArray where
  | floats (xs : List FVal)
  | ints (xs : List Int)
deriving Repr, DecidableEq

/-- `ensure_contiguous_if_array` (lines 831-844), elementwise on the array's
values (contiguity is memory layout and has no observable value effect). -/
def ensure_contiguous_if_array (round32 : ℚ → ℚ) : NpArray → NpArray
  | NpArray.floats xs =>
    NpArray.floats (xs.map fun v =>
      nanToNum FVal.nan (FVal.finite float32Max) (FVal.finite float32Min)
        (castFloat32 round32 v))
  | NpArray.ints xs => NpArray.ints xs

end NixtlaClient

open NixtlaClient

/-- C8: a serialized payload strictly above 200 MiB fails before any send with
an error naming `ceil(size_in_MiB / 200)` partitions; above 1 MiB and at most
200 MiB the body is compressed and carries a `content-encoding: zstd` header;
at or below 1 MiB it is sent uncompressed with no such header. -/
theorem payload_size_thresholds (n : Nat) :
    (200 * MiB < n →
      prepareOutboundBody n =
        Except.error
          ("The payload is too large. Set num_partitions=" ++ toString (requiredPartitions n)) ∧
      ((requiredPartitions n : ℤ) = ⌈((n : ℚ) / 2 ^ 20) / 200⌉)) ∧
    (MiB < n → n ≤ 200 * MiB →
      prepareOutboundBody n =
        Except.ok { compressed := true, contentEncodingHeader := some "zstd" }) ∧
    (n ≤ MiB →
      prepareOutboundBody n =
        Except.ok { compressed := false, contentEncodingHeader := none }) := by
  have hMiB : MiB = 1048576 := by norm_num [MiB]
  refine ⟨fun h => ⟨?_, ?_⟩, fun h1 h2 => ?_, fun h => ?_⟩
  · simp [prepareOutboundBody, h]
  · have hK1 : n ≤ requiredPartitions n * (200 * MiB) := by
      have hdm := Nat.div_add_mod (n + 200 * MiB - 1) (200 * MiB)
      have hlt : (n + 200 * MiB - 1) % (200 * MiB) < 200 * MiB :=
        Nat.mod_lt _ (by rw [hMiB]; norm_num)
      unfold requiredPartitions
      rw [hMiB] at *
      omega
    have hK2 : requiredPartitions n * (200 * MiB) < n + 200 * MiB := by
      have hdm := Nat.div_add_mod (n + 200 * MiB - 1) (200 * MiB)
      have hlt : (n + 200 * MiB - 1) % (200 * MiB) < 200 * MiB :=
        Nat.mod_lt _ (by rw [hMiB]; norm_num)
      unfold requiredPartitions
      rw [hMiB] at *
      omega
    have hD : (0 : ℚ) < ((200 * MiB : Nat) : ℚ) := by
      rw [hMiB]; norm_num
    have hrw : ((n : ℚ) / 2 ^ 20) / 200 = (n : ℚ) / ((200 * MiB : Nat) : ℚ) := by
      rw [div_div, hMiB]; norm_num
    rw [hrw, eq_comm, Int.ceil_eq_iff]
    constructor
    · rw [lt_div_iff₀ hD]
      have h2 : ((requiredPartitions n * (200 * MiB) : Nat) : ℚ) <
          ((n + 200 * MiB : Nat) : ℚ) := by exact_mod_cast hK2
      push_cast at h2 ⊢
      nlinarith [h2]
    · rw [div_le_iff₀ hD]
      have h1 : ((n : Nat) : ℚ) ≤ ((requiredPartitions n * (200 * MiB) : Nat) : ℚ) := by
        exact_mod_cast hK1
      push_cast at h1 ⊢
      nlinarith [h1]
  · simp [prepareOutboundBody, Nat.not_lt.mpr h2, h1]
  · have h2 : ¬ 200 * MiB < n := by rw [hMiB] at *; omega
    have h1 : ¬ MiB < n := by omega
    simp [prepareOutboundBody, h1, h2]

/-- C8 witness: the three size regimes at concrete byte counts. -/
theorem payload_size_thresholds_witness :
    (prepareOutboundBody (300 * MiB) =
        Except.error
          ("The payload is too large. Set num_partitions=" ++
            toString (requiredPartitions (300 * MiB))) ∧
      ((requiredPartitions (300 * MiB) : ℤ) = ⌈(((300 * MiB : Nat) : ℚ) / 2 ^ 20) / 200⌉)) ∧
    prepareOutboundBody (2 * MiB) =
      Except.ok { compressed := true, contentEncodingHeader := some "zstd" } ∧
    prepareOutboundBody 100 =
      Except.ok { compressed := false, contentEncodingHeader := none } :=
  ⟨(payload_size_thresholds (300 * MiB)).1 (by norm_num [MiB]),
   (payload_size_thresholds (2 * MiB)).2.1 (by norm_num [MiB]) (by norm_num [MiB]),
   (payload_size_thresholds 100).2.2 (by norm_num [MiB])⟩

/-- C9: before encoding, floating arrays are sanitized elementwise — NaN stays
NaN, `+inf` becomes the largest representable float32 value, `-inf` becomes the
smallest — and non-floating arrays keep their values unchanged. -/
theorem float_sanitization (round32 : ℚ → ℚ) (xs : List FVal) (ys : List Int) :
    (float32Max = 2 ^ 128 - 2 ^ 104) ∧
    (ensure_contiguous_if_array round32 (NpArray.ints ys) = NpArray.ints ys) ∧
    (∃ zs : List FVal,
      ensure_contiguous_if_array round32 (NpArray.floats xs) = NpArray.floats zs ∧
      zs.length = xs.length ∧
      ∀ i (hi : i < xs.length),
        (xs.get ⟨i, hi⟩ = FVal.nan → zs.get? i = some FVal.nan) ∧
        (xs.get ⟨i, hi⟩ = FVal.posinf → zs.get? i = some (FVal.finite float32Max)) ∧
        (xs.get ⟨i, hi⟩ = FVal.neginf → zs.get? i = some (FVal.finite float32Min))) := by
  refine ⟨by norm_num [float32Max], rfl, ?_⟩
  refine ⟨_, rfl, by simp, ?_⟩
  intro i hi
  have hget : (xs.map fun v =>
      nanToNum FVal.nan (FVal.finite float32Max) (FVal.finite float32Min)
        (castFloat32 round32 v)).get? i =
      (xs.get? i).map fun v =>
        nanToNum FVal.nan (FVal.finite float32Max) (FVal.finite float32Min)
          (castFloat32 round32 v) := by
    simp
  have hx : xs.get? i = some (xs.get ⟨i, hi⟩) := List.get?_eq_get hi
  refine ⟨fun hv => ?_, fun hv => ?_, fun hv => ?_⟩ <;>
    rw [hget, hx, hv] <;> rfl

/-- C9 witness: a concrete float array with a NaN, both infinities and a
finite value, and a concrete int array. -/
theorem float_sanitization_witness :
    ∃ zs : List FVal,
      ensure_contiguous_if_array id
          (NpArray.floats [FVal.nan, FVal.posinf, FVal.neginf, FVal.finite 3]) =
        NpArray.floats zs ∧
      zs.length = 4 ∧
      zs.get? 0 = some FVal.nan ∧
      zs.get? 1 = some (FVal.finite float32Max) ∧
      zs.get? 2 = some (FVal.finite float32Min) := by
  obtain ⟨-, -, zs, hz, hlen, hel⟩ :=
    float_sanitization id [FVal.nan, FVal.posinf, FVal.neginf, FVal.finite 3] []
  exact ⟨zs, hz, by simpa using hlen,
    (hel 0 (by norm_num)).1 rfl,
    (hel 1 (by norm_num)).2.1 rfl,
    (hel 2 (by norm_num)).2.2 rfl⟩

namespace NixtlaClient

/-! ## Error taxonomy and retry classification (`_retry_strategy`, lines 170-199) -/

/-- Minimal JSON value model: enough to carry response bodies and the `data`
enveloping convention. -/
inductive JVal where
  | jstr (s : String)
  | jobj (fields : List (String × JVal))

def jlookup : List (String × JVal) → String → Option JVal
  | [], _ => none
  | (k, v) :: rest, key => if k = key then some v else jlookup rest key

/-- The exceptions `_make_request` and the transport can raise: the ten
transient exception classes enumerated at lines 172-183, `ApiError`
(status code + body), and any other exception. -/
inductive Exc where
  | connectionResetError
  | httpcoreConnectError
  | httpcoreRemoteProtocolError
  | httpxConnectTimeout
  | httpxReadError
  | httpxRemoteProtocolError
  | httpxReadTimeout
  | httpxPoolTimeout
  | httpxWriteError
  | httpxWriteTimeout
  | apiError (status_code : Nat) (body : JVal)
  | otherError (descr : String)

def retriable_codes : List Nat := [408, 409, 429, 502, 503, 504]

/-- `should_retry` (lines 171-187): transient exception classes and `ApiError`
with a retriable status code. -/
def should_retry : Exc → Bool
  | Exc.apiError code _ => retriable_codes.contains code
  | Exc.otherError _ => false
  | _ => true

/-! ## Response-body handling (`_make_request`, lines 868-879) -/

/-- Lines 868-879 of `_make_request`: `parsed` is the outcome of
`orjson.loads` on the raw response body (`none` = `JSONDecodeError`).
An unparseable body raises `ApiError` with the raw text; a non-200 status
raises `ApiError` with the parsed body; a `{"data": ...}` envelope is
unwrapped. -/
def handleResponse (status_code : Nat) (raw : String) (parsed : Option JVal) :
    Except Exc JVal :=
  match parsed with
  | none =>
    Except.error (Exc.apiError status_code (JVal.jstr ("Could not parse JSON: " ++ raw)))
  | some body =>
    if status_code ≠ 200 then Except.error (Exc.apiError status_code body)
    else
      match body with
      | JVal.jobj fields =>
        match jlookup fields "data" with
        | some v => Except.ok v
        | none => Except.ok body
      | _ => Except.ok body

/-! ## Partition payloads and the merge of partitioned responses -/

/-- The `series` part of a request payload: flat target buffer `y`, per-series
lengths `sizes`, optional historical feature rows `X` and future feature rows
`X_future`.  Numeric values are embedded as integers (the partition and merge
logic never inspects them). -/
structure SeriesData where
  y : List Int
  sizes : List Nat
  X : Option (List (List Int))
  X_future : Option (List (List Int))
deriving Repr, DecidableEq

/-- The `idxs` merge of `_make_partitioned_requests` (lines 937-944):
`offsets = [0] + [sum(p["series"]["sizes"]) for p in payloads[:-1]]`, then each
partition's `idxs` is shifted by its offset and the results are concatenated. -/
def merge_partitioned_idxs (payloads : List SeriesData) (results : List (List Int)) :
    List Int :=
  let offsets : List Int := 0 :: payloads.dropLast.map (fun p => (p.sizes.sum : Int))
  ((results.zip offsets).map fun pr => pr.1.map (· + pr.2)).flatten

/-- The offsets the spec requires: partition `j` shifted by the cumulative
series-row-count of partitions `0..j-1`. -/
def cumulativeOffsets (payloads : List SeriesData) : List Int :=
  (List.range payloads.length).map fun j =>
    ((((payloads.take j).map fun p => p.sizes.sum).sum : Nat) : Int)

/-- The merged `idxs` the claim describes: concatenation with cumulative
offsets. -/
def merge_idxs_claimed (payloads : List SeriesData) (results : List (List Int)) :
    List Int :=
  ((results.zip (cumulativeOffsets payloads)).map fun pr => pr.1.map (· + pr.2)).flatten

end NixtlaClient

/-- C4 counterexample: an unparseable body on a 503 response becomes
`ApiError(503, raw text)`, and `should_retry` classifies that error as
retriable — it is not surfaced immediately, contradicting "without being
retried, regardless of the HTTP status code". -/
theorem unparseable_body_retried_counterexample :
    handleResponse 503 "<html>bad gateway</html>" none =
      Except.error
        (Exc.apiError 503 (JVal.jstr "Could not parse JSON: <html>bad gateway</html>")) ∧
    should_retry
        (Exc.apiError 503 (JVal.jstr "Could not parse JSON: <html>bad gateway</html>")) =
      true :=
  ⟨rfl, rfl⟩

/-- C4 (amended): a response whose body cannot be parsed as JSON raises an
`ApiError` carrying the raw body text; that error is retried exactly when the
response's HTTP status code is in the retriable set {408, 409, 429, 502, 503,
504}, and is surfaced immediately otherwise. -/
theorem unparseable_body_apierror (status : Nat) (raw : String) :
    handleResponse status raw none =
      Except.error (Exc.apiError status (JVal.jstr ("Could not parse JSON: " ++ raw))) ∧
    (should_retry (Exc.apiError status (JVal.jstr ("Could not parse JSON: " ++ raw))) = true ↔
      status ∈ retriable_codes) := by
  refine ⟨rfl, ?_⟩
  show retriable_codes.contains status = true ↔ status ∈ retriable_codes
  exact List.elem_iff

/-- C1: with three partitions of 2, 3 and 4 rows whose local `idxs` are all
`[0]`, the code's merged `idxs` is `[0, 2, 3]` (each offset is only the
immediately preceding partition's row count) while offsetting by the
cumulative row count of all prior partitions — which the spec requires for the
merged `idxs` to index into the full flat buffer — gives `[0, 2, 5]`. -/
theorem merge_idxs_noncumulative_bug :
    merge_partitioned_idxs
        [{ y := [10, 11], sizes := [2], X := none, X_future := none },
         { y := [20, 21, 22], sizes := [3], X := none, X_future := none },
         { y := [30, 31, 32, 33], sizes := [4], X := none, X_future := none }]
        [[0], [0], [0]] = [0, 2, 3] ∧
    merge_idxs_claimed
        [{ y := [10, 11], sizes := [2], X := none, X_future := none },
         { y := [20, 21, 22], sizes := [3], X := none, X_future := none },
         { y := [30, 31, 32, 33], sizes := [4], X := none, X_future := none }]
        [[0], [0], [0]] = [0, 2, 5] ∧
    ([0, 2, 3] : List Int) ≠ [0, 2, 5] := by
  refine ⟨rfl, rfl, by decide⟩

namespace NixtlaClient

/-! ## Request partitioner (`_partition_series`, lines 273-302)

The Python loop `for i in range(0, n_series, series_per_part)` iterates over
the chunk start positions `0, spp, 2*spp, ...` (there are
`ceil(n_series / spp)` of them), and `prev_size` — the running sum of the
emitted chunks' sizes — equals `sum(sizes[:i])` at the chunk starting at `i`,
because the previous chunks cover exactly `sizes[0:i]`. -/

/-- `range(0, n, step)`: chunk start positions. -/
def chunkStarts (n step : Nat) : List Nat :=
  (List.range ((n + step - 1) / step)).map (· * step)

/-- `series_per_part = math.ceil(n_series / n_part)` after
`n_part = min(n_part, n_series)` (lines 279-280). -/
def seriesPerPart (s : SeriesData) (n_part : Nat) : Nat :=
  let n := s.sizes.length
  (n + min n_part n - 1) / min n_part n

/-- `_partition_series` (lines 273-302).  When `h = 0` the `X_future` key is
absent from the emitted payload; key-absent and value-`None` are both embedded
as `none`.  The `series["X_future"] is None` case with `X` present and `h > 0`
would raise in Python and is likewise embedded as `none`. -/
def _partition_series (s : SeriesData) (n_part h : Nat) : List SeriesData :=
  let spp := seriesPerPart s n_part
  (chunkStarts s.sizes.length spp).map fun i =>
    let csizes := (s.sizes.drop i).take spp
    let prev := (s.sizes.take i).sum
    let curr := csizes.sum
    { y := (s.y.drop prev).take curr
      sizes := csizes
      X :=
        match s.X with
        | none => none
        | some xs => some (xs.map fun x => (x.drop prev).take curr)
      X_future :=
        match s.X with
        | none => none
        | some _ =>
          if 0 < h then
            match s.X_future with
            | none => none
            | some xfs => some (xfs.map fun x => (x.drop (i * h)).take (spp * h))
          else none }

/-- Feature-wise concatenation of per-partition feature matrices (each a list
of feature rows): row `k` of the result is the concatenation of the
partitions' rows `k`. -/
def featConcat : List (List (List Int)) → List (List Int)
  | [] => []
  | [x] => x
  | x :: y :: rest => List.zipWith (· ++ ·) x (featConcat (y :: rest))

end NixtlaClient

namespace NixtlaClient

lemma ceil_div_pos {n c : Nat} (hn : 1 ≤ n) (hc : 1 ≤ c) :
    1 ≤ (n + c - 1) / c := by
  have : c ≤ n + c - 1 := by omega
  exact Nat.one_le_div_iff hc |>.mpr this

lemma le_ceil_div_mul {n c : Nat} (hc : 1 ≤ c) :
    n ≤ (n + c - 1) / c * c := by
  have h1 := Nat.div_add_mod (n + c - 1) c
  have h2 : (n + c - 1) % c < c := Nat.mod_lt _ hc
  rw [Nat.mul_comm]
  revert h1 h2
  generalize c * ((n + c - 1) / c) = K
  intro h1 h2
  omega

lemma ceil_div_mul_lt {n c : Nat} (hn : 1 ≤ n) (hc : 1 ≤ c) :
    ((n + c - 1) / c - 1) * c < n := by
  have h1 := Nat.div_add_mod (n + c - 1) c
  have h2 : (n + c - 1) % c < c := Nat.mod_lt _ hc
  have h3 : 1 ≤ (n + c - 1) / c := ceil_div_pos hn hc
  have h4 : ((n + c - 1) / c - 1) * c + c = (n + c - 1) / c * c := by
    have := Nat.succ_pred_eq_of_pos h3
    calc ((n + c - 1) / c - 1) * c + c = ((n + c - 1) / c - 1 + 1) * c := by ring
      _ = (n + c - 1) / c * c := by rw [Nat.sub_add_cancel h3]
  have h5 : (n + c - 1) / c * c < n + c := by
    rw [Nat.mul_comm]
    revert h1 h2
    generalize c * ((n + c - 1) / c) = K
    intro h1 h2
    omega
  omega

/-- Concatenating the `k` aligned chunks of width `c` of a list gives its
first `k*c` elements. -/
lemma flatten_aligned_chunks {α : Type} (c : Nat) :
    ∀ (k : Nat) (l : List α),
      (((List.range k).map fun j => (l.drop (j * c)).take c).flatten) = l.take (k * c) := by
  intro k
  induction k with
  | zero => intro l; simp
  | succ k ih =>
    intro l
    rw [List.range_succ_eq_map]
    simp only [List.map_cons, List.map_map, List.flatten_cons]
    have hmap : (List.range k).map ((fun j => (l.drop (j * c)).take c) ∘ (· + 1)) =
        (List.range k).map fun j => ((l.drop c).drop (j * c)).take c := by
      refine List.map_congr_left fun j _ => ?_
      simp only [Function.comp_apply, List.drop_drop]
      congr 2
      ring
    rw [hmap, ih (l.drop c)]
    have : l.take c ++ (l.drop c).take (k * c) = l.take (c + k * c) := (List.take_add ..).symm
    rw [Nat.zero_mul, List.drop_zero, this]
    congr 1
    ring

/-- Concatenating the `k` ragged chunks (each covering `c` consecutive series)
of a flat buffer `y` laid out by `sizes` gives the first
`sum(sizes[: k*c])` elements of `y`. -/
lemma flatten_ragged_chunks {α : Type} (c : Nat) :
    ∀ (k : Nat) (sizes : List Nat) (y : List α),
      (((List.range k).map fun j =>
          (y.drop ((sizes.take (j * c)).sum)).take (((sizes.drop (j * c)).take c).sum)).flatten)
        = y.take ((sizes.take (k * c)).sum) := by
  intro k
  induction k with
  | zero => intro sizes y; simp
  | succ k ih =>
    intro sizes y
    rw [List.range_succ_eq_map]
    simp only [List.map_cons, List.map_map, List.flatten_cons]
    have hsum : ∀ m : Nat, (sizes.take (c + m)).sum =
        (sizes.take c).sum + ((sizes.drop c).take m).sum := by
      intro m
      rw [List.take_add, List.sum_append]
    have hmap : (List.range k).map ((fun j =>
        (y.drop ((sizes.take (j * c)).sum)).take (((sizes.drop (j * c)).take c).sum)) ∘ (· + 1)) =
        (List.range k).map fun j =>
          (((y.drop ((sizes.take c).sum)).drop (((sizes.drop c).take (j * c)).sum)).take
            ((((sizes.drop c).drop (j * c)).take c).sum)) := by
      refine List.map_congr_left fun j _ => ?_
      have e1 : (j + 1) * c = c + j * c := by ring
      simp only [Function.comp_apply, e1, hsum, List.drop_drop]
    rw [hmap, ih (sizes.drop c) (y.drop ((sizes.take c).sum))]
    simp only [Nat.zero_mul, List.take_zero, List.sum_nil, List.drop_zero]
    have e2 : (k + 1) * c = c + k * c := by ring
    rw [e2, hsum, ← List.take_add]

lemma zipWith_map_same {α β γ δ : Type} (f : β → γ → δ) (g : α → β) (h : α → γ)
    (l : List α) :
    List.zipWith f (l.map g) (l.map h) = l.map fun x => f (g x) (h x) := by
  induction l with
  | nil => rfl
  | cons a l ih => simp [ih]

lemma featConcat_map_cols {γ : Type} (f : γ → List Int → List Int) :
    ∀ (chunks : List γ) (xs : List (List Int)), chunks ≠ [] →
      featConcat (chunks.map fun c => xs.map (f c)) =
        xs.map fun x => (chunks.map fun c => f c x).flatten := by
  intro chunks
  induction chunks with
  | nil => intro xs h; exact absurd rfl h
  | cons c rest ih =>
    intro xs _
    cases rest with
    | nil => simp [featConcat]
    | cons c' rest' =>
      rw [List.map_cons, show featConcat ((xs.map (f c)) :: (c' :: rest').map fun d => xs.map (f d)) =
          List.zipWith (· ++ ·) (xs.map (f c)) (featConcat ((c' :: rest').map fun d => xs.map (f d)))
          from rfl]
      rw [ih xs (by simp), zipWith_map_same]
      simp

end NixtlaClient


namespace NixtlaClient

lemma ceil_div_mul_lt_add {n c : Nat} (hc : 1 ≤ c) :
    (n + c - 1) / c * c < n + c := by
  have h1 := Nat.div_add_mod (n + c - 1) c
  have h2 : (n + c - 1) % c < c := Nat.mod_lt _ hc
  rw [Nat.mul_comm]
  revert h1 h2
  generalize c * ((n + c - 1) / c) = K
  intro h1 h2
  omega

/-- Natural ceiling division agrees with the rational ceiling. -/
lemma natCeilDiv_cast {n c : Nat} (hc : 1 ≤ c) :
    (((n + c - 1) / c : Nat) : ℤ) = ⌈(n : ℚ) / (c : ℚ)⌉ := by
  have hD : (0 : ℚ) < (c : ℚ) := by exact_mod_cast hc
  have h2 : (n + c - 1) / c * c < n + c := ceil_div_mul_lt_add hc
  have h1 : n ≤ (n + c - 1) / c * c := le_ceil_div_mul hc
  revert h1 h2
  generalize (n + c - 1) / c = K
  intro h2 h1
  rw [eq_comm, Int.ceil_eq_iff]
  constructor
  · rw [lt_div_iff₀ hD]
    have h2q : ((K * c : Nat) : ℚ) < ((n + c : Nat) : ℚ) := by exact_mod_cast h2
    push_cast at h2q ⊢
    nlinarith [h2q]
  · rw [div_le_iff₀ hD]
    have h1q : ((n : Nat) : ℚ) ≤ ((K * c : Nat) : ℚ) := by exact_mod_cast h1
    push_cast at h1q ⊢
    nlinarith [h1q]

end NixtlaClient

/-- C2: for a well-formed payload with at least one series and
`n_partitions ≥ 1`, `_partition_series` groups the series into contiguous
chunks of `ceil(n / min(n_partitions, n))` consecutive series in order (so no
series is ever split across two sub-payloads), and concatenating the
sub-payloads' `y`, `sizes`, `X` and `X_future` fields in partition order
reproduces the original payload's fields exactly. -/
theorem partition_series_concat (s : SeriesData) (n_part h : Nat)
    (hp : 1 ≤ n_part) (hn : s.sizes ≠ [])
    (hy : s.y.length = s.sizes.sum) :
    1 ≤ seriesPerPart s n_part ∧
    (∀ j (hj : j < (_partition_series s n_part h).length),
      ((_partition_series s n_part h).get? j).map SeriesData.sizes =
        some ((s.sizes.drop (j * seriesPerPart s n_part)).take (seriesPerPart s n_part))) ∧
    ((_partition_series s n_part h).map SeriesData.sizes).flatten = s.sizes ∧
    ((_partition_series s n_part h).map SeriesData.y).flatten = s.y ∧
    (∀ xs, s.X = some xs → (∀ x ∈ xs, x.length = s.sizes.sum) →
      featConcat ((_partition_series s n_part h).map fun p => p.X.getD []) = xs) ∧
    (∀ xs xfs, s.X = some xs → s.X_future = some xfs → 0 < h →
      (∀ x ∈ xfs, x.length = s.sizes.length * h) →
      featConcat ((_partition_series s n_part h).map fun p => p.X_future.getD []) = xfs) := by
  have hnlen : 1 ≤ s.sizes.length := List.length_pos.mpr hn
  have hnp : 1 ≤ min n_part s.sizes.length := le_min hp hnlen
  have hspp : 1 ≤ seriesPerPart s n_part := ceil_div_pos hnlen hnp
  set spp := seriesPerPart s n_part with hsppdef
  set k := (s.sizes.length + spp - 1) / spp with hkdef
  have hcover : s.sizes.length ≤ k * spp := le_ceil_div_mul hspp
  have hk1 : 1 ≤ k := ceil_div_pos hnlen hspp
  have hrk : (List.range k) ≠ [] := by
    intro hcon
    rw [List.range_eq_nil] at hcon
    omega
  have hparts : _partition_series s n_part h = (List.range k).map (fun j =>
      ({ y := (s.y.drop ((s.sizes.take (j * spp)).sum)).take
            (((s.sizes.drop (j * spp)).take spp).sum)
         sizes := (s.sizes.drop (j * spp)).take spp
         X :=
           match s.X with
           | none => none
           | some xs => some (xs.map fun x => (x.drop ((s.sizes.take (j * spp)).sum)).take
               (((s.sizes.drop (j * spp)).take spp).sum))
         X_future :=
           match s.X with
           | none => none
           | some _ =>
             if 0 < h then
               match s.X_future with
               | none => none
               | some xfs => some (xfs.map fun x => (x.drop (j * spp * h)).take (spp * h))
             else none } : SeriesData)) := by
    unfold _partition_series chunkStarts
    rw [List.map_map]
    rfl
  have htake_all : s.sizes.take (k * spp) = s.sizes := List.take_all_of_le hcover
  refine ⟨hspp, ?_, ?_, ?_, ?_, ?_⟩
  · intro j hj
    rw [hparts] at hj
    simp only [List.length_map, List.length_range] at hj
    rw [hparts, List.get?_map, List.get?_range hj]
    rfl
  · rw [hparts, List.map_map]
    simp only [Function.comp_def]
    calc ((List.range k).map fun j => (s.sizes.drop (j * spp)).take spp).flatten
        = s.sizes.take (k * spp) := flatten_aligned_chunks spp k s.sizes
      _ = s.sizes := htake_all
  · rw [hparts, List.map_map]
    simp only [Function.comp_def]
    calc ((List.range k).map fun j =>
          (s.y.drop ((s.sizes.take (j * spp)).sum)).take
            (((s.sizes.drop (j * spp)).take spp).sum)).flatten
        = s.y.take ((s.sizes.take (k * spp)).sum) := flatten_ragged_chunks spp k s.sizes s.y
      _ = s.y.take s.y.length := by rw [htake_all, ← hy]
      _ = s.y := List.take_length ..
  · intro xs hxs hxlen
    rw [hparts, List.map_map]
    simp only [Function.comp_def, hxs, Option.getD_some]
    rw [featConcat_map_cols _ (List.range k) xs hrk]
    have hall : ∀ x ∈ xs, ((List.range k).map fun j =>
        (x.drop ((s.sizes.take (j * spp)).sum)).take
          (((s.sizes.drop (j * spp)).take spp).sum)).flatten = x := by
      intro x hx
      rw [flatten_ragged_chunks spp k s.sizes x, htake_all, ← hxlen x hx]
      exact List.take_length ..
    calc xs.map (fun x => ((List.range k).map fun j =>
          (x.drop ((s.sizes.take (j * spp)).sum)).take
            (((s.sizes.drop (j * spp)).take spp).sum)).flatten)
        = xs.map id := List.map_congr_left fun x hx => hall x hx
      _ = xs := List.map_id xs
  · intro xs xfs hxs hxfs hh hflen
    rw [hparts, List.map_map]
    simp only [Function.comp_def, hxs, hxfs, hh, if_true, Option.getD_some]
    rw [featConcat_map_cols _ (List.range k) xfs hrk]
    have hall : ∀ x ∈ xfs, ((List.range k).map fun j =>
        (x.drop (j * spp * h)).take (spp * h)).flatten = x := by
      intro x hx
      have hidx : ((List.range k).map fun j => (x.drop (j * spp * h)).take (spp * h)) =
          ((List.range k).map fun j => (x.drop (j * (spp * h))).take (spp * h)) := by
        refine List.map_congr_left fun j _ => ?_
        rw [Nat.mul_assoc]
      rw [hidx, flatten_aligned_chunks (spp * h) k x]
      refine List.take_all_of_le ?_
      rw [hflen x hx, ← Nat.mul_assoc]
      exact Nat.mul_le_mul_right h hcover
    calc xfs.map (fun x => ((List.range k).map fun j =>
          (x.drop (j * spp * h)).take (spp * h)).flatten)
        = xfs.map id := List.map_congr_left fun x hx => hall x hx
      _ = xfs := List.map_id xfs

/-- C10: `_partition_series` returns exactly
`ceil(n / ceil(n / min(n_partitions, n)))` sub-payloads, each holding at least
one series; this count can be strictly smaller than `min(n_partitions, n)` —
with 5 series and `n_partitions = 4` it yields 3 sub-payloads. -/
theorem partition_series_count (s : SeriesData) (n_part h : Nat)
    (hp : 1 ≤ n_part) (hn : s.sizes ≠ []) :
    ((_partition_series s n_part h).length =
      (s.sizes.length + seriesPerPart s n_part - 1) / seriesPerPart s n_part) ∧
    (((_partition_series s n_part h).length : ℤ) =
      ⌈(s.sizes.length : ℚ) / (seriesPerPart s n_part : ℚ)⌉) ∧
    ((seriesPerPart s n_part : ℤ) =
      ⌈(s.sizes.length : ℚ) / ((min n_part s.sizes.length : Nat) : ℚ)⌉) ∧
    (∀ p ∈ _partition_series s n_part h, p.sizes ≠ []) ∧
    ((_partition_series
        { y := [10, 20, 30, 40, 50], sizes := [1, 1, 1, 1, 1],
          X := none, X_future := none } 4 0).length = 3 ∧
      3 < min 4 5) := by
  have hnlen : 1 ≤ s.sizes.length := List.length_pos.mpr hn
  have hnp : 1 ≤ min n_part s.sizes.length := le_min hp hnlen
  have hspp : 1 ≤ seriesPerPart s n_part := ceil_div_pos hnlen hnp
  have hlen : (_partition_series s n_part h).length =
      (s.sizes.length + seriesPerPart s n_part - 1) / seriesPerPart s n_part := by
    unfold _partition_series chunkStarts
    simp
  refine ⟨hlen, ?_, ?_, ?_, by decide, by decide⟩
  · rw [hlen]
    exact natCeilDiv_cast hspp
  · have hsp : seriesPerPart s n_part =
        (s.sizes.length + min n_part s.sizes.length - 1) / (min n_part s.sizes.length) := rfl
    rw [hsp]
    exact natCeilDiv_cast hnp
  · intro p hmem
    set spp := seriesPerPart s n_part with hsppdef
    set k := (s.sizes.length + spp - 1) / spp with hkdef
    have hparts : _partition_series s n_part h = (List.range k).map (fun j =>
        ({ y := (s.y.drop ((s.sizes.take (j * spp)).sum)).take
              (((s.sizes.drop (j * spp)).take spp).sum)
           sizes := (s.sizes.drop (j * spp)).take spp
           X :=
             match s.X with
             | none => none
             | some xs => some (xs.map fun x => (x.drop ((s.sizes.take (j * spp)).sum)).take
                 (((s.sizes.drop (j * spp)).take spp).sum))
           X_future :=
             match s.X with
             | none => none
             | some _ =>
               if 0 < h then
                 match s.X_future with
                 | none => none
                 | some xfs => some (xfs.map fun x => (x.drop (j * spp * h)).take (spp * h))
               else none } : SeriesData)) := by
      unfold _partition_series chunkStarts
      rw [List.map_map]
      rfl
    rw [hparts] at hmem
    obtain ⟨j, hj, hpj⟩ := List.mem_map.mp hmem
    have hjk : j < k := List.mem_range.mp hj
    have hk1 : 1 ≤ k := ceil_div_pos hnlen hspp
    have hjstart : j * spp < s.sizes.length := by
      have h1 : j * spp ≤ (k - 1) * spp := Nat.mul_le_mul_right spp (by omega)
      have h2 : (k - 1) * spp < s.sizes.length := ceil_div_mul_lt hnlen hspp
      omega
    have hsizes : p.sizes = (s.sizes.drop (j * spp)).take spp := by rw [← hpj]
    rw [hsizes]
    refine List.length_pos.mp ?_
    rw [List.length_take, List.length_drop]
    omega

/-- C10 witness: 5 series with `n_partitions = 4` — 3 sub-payloads, strictly
fewer than `min(4, 5) = 4`, each nonempty. -/
theorem partition_series_count_witness :
    (1 : Nat) ≤ 4 ∧
    ({ y := [10, 20, 30, 40, 50], sizes := [1, 1, 1, 1, 1],
       X := none, X_future := none } : SeriesData).sizes ≠ [] ∧
    ((_partition_series
        { y := [10, 20, 30, 40, 50], sizes := [1, 1, 1, 1, 1],
          X := none, X_future := none } 4 0).length = 3 ∧
      3 < min 4 5) ∧
    (∀ p ∈ _partition_series
        { y := [10, 20, 30, 40, 50], sizes := [1, 1, 1, 1, 1],
          X := none, X_future := none } 4 0, p.sizes ≠ []) :=
  ⟨by decide, by decide,
   (partition_series_count
      { y := [10, 20, 30, 40, 50], sizes := [1, 1, 1, 1, 1],
        X := none, X_future := none } 4 0 (by decide) (by decide)).2.2.2.2,
   (partition_series_count
      { y := [10, 20, 30, 40, 50], sizes := [1, 1, 1, 1, 1],
        X := none, X_future := none } 4 0 (by decide) (by decide)).2.2.2.1⟩

/-- C2 witness: 3 series of sizes 2, 1, 3 with one historical and one future
feature, partitioned in two with horizon 2; the sub-payloads' fields
concatenate back to the originals. -/
theorem partition_series_concat_witness :
    (1 : Nat) ≤ 2 ∧
    ({ y := [1, 2, 3, 4, 5, 6], sizes := [2, 1, 3],
       X := some [[10, 20, 30, 40, 50, 60]],
       X_future := some [[7, 8, 9, 10, 11, 12]] } : SeriesData).sizes ≠ [] ∧
    ((_partition_series
        { y := [1, 2, 3, 4, 5, 6], sizes := [2, 1, 3],
          X := some [[10, 20, 30, 40, 50, 60]],
          X_future := some [[7, 8, 9, 10, 11, 12]] } 2 2).map SeriesData.y).flatten =
      [1, 2, 3, 4, 5, 6] ∧
    featConcat ((_partition_series
        { y := [1, 2, 3, 4, 5, 6], sizes := [2, 1, 3],
          X := some [[10, 20, 30, 40, 50, 60]],
          X_future := some [[7, 8, 9, 10, 11, 12]] } 2 2).map fun p =>
        p.X_future.getD []) = [[7, 8, 9, 10, 11, 12]] :=
  ⟨by decide, by decide,
   (partition_series_concat
      { y := [1, 2, 3, 4, 5, 6], sizes := [2, 1, 3],
        X := some [[10, 20, 30, 40, 50, 60]],
        X_future := some [[7, 8, 9, 10, 11, 12]] } 2 2 (by decide) (by decide)
      (by decide)).2.2.2.1,
   (partition_series_concat
      { y := [1, 2, 3, 4, 5, 6], sizes := [2, 1, 3],
        X := some [[10, 20, 30, 40, 50, 60]],
        X_future := some [[7, 8, 9, 10, 11, 12]] } 2 2 (by decide) (by decide)
      (by decide)).2.2.2.2.2 [[10, 20, 30, 40, 50, 60]] [[7, 8, 9, 10, 11, 12]]
      rfl rfl (by decide) (by decide)⟩


namespace NixtlaClient

/-! ## Tail extraction (`_array_tails` lines 247-257, `_tail` lines 260-270) -/

/-- `np.diff` on an index pointer. -/
def diffNat (l : List Nat) : List Nat := List.zipWith (fun a b => b - a) l l.tail

/-- `_array_tails` (lines 247-257): reject tail lengths larger than the
series' existing lengths, otherwise gather `x[end-size : end]` for each
`(end, size)` in `zip(indptr[1:], out_sizes)` and concatenate.  (`x[idxs]`
with `idxs = arange(end-size, end)` is the contiguous slice
`x[end-size : end]`; under the theorems' hypotheses every index is in
range, where numpy and the clamping `drop`/`take` agree.) -/
def _array_tails {α : Type} (x : List α) (indptr : List Nat) (out_sizes : List Nat) :
    Except String (List α) :=
  if (List.zip out_sizes (diffNat indptr)).any (fun p => p.2 < p.1) then
    Except.error "out_sizes must be at most the original sizes."
  else
    Except.ok (((List.zip indptr.tail out_sizes).map fun p =>
      (x.drop (p.1 - p.2)).take p.2).flatten)

/-- `_tail` (lines 260-270), restricted to the flat data buffer: truncate
every series to its last `min(size, n)` rows
(`new_sizes = np.minimum(np.diff(indptr), n)`). -/
def tail_data {α : Type} (x : List α) (indptr : List Nat) (n : Nat) :
    Except String (List α) :=
  _array_tails x indptr ((diffNat indptr).map fun s => min s n)

/-- The `indptr` of a ragged array with the given per-series sizes: 0 followed
by the running sums. -/
def cumIndptr : List Nat → List Nat
  | [] => [0]
  | s :: rest => 0 :: (cumIndptr rest).map (s + ·)

/-- A flat buffer split into its per-series slices. -/
def seriesOf {α : Type} : List α → List Nat → List (List α)
  | _, [] => []
  | x, s :: rest => x.take s :: seriesOf (x.drop s) rest

lemma cumIndptr_cons_zero (sizes : List Nat) :
    ∃ t, cumIndptr sizes = 0 :: t := by
  cases sizes with
  | nil => exact ⟨[], rfl⟩
  | cons s rest => exact ⟨_, rfl⟩

lemma diffNat_map_add (s : Nat) (l : List Nat) :
    diffNat (l.map (s + ·)) = diffNat l := by
  unfold diffNat
  rw [show (l.map (s + ·)).tail = l.tail.map (s + ·) from (List.map_tail _ l).symm]
  rw [List.zipWith_map]
  have h5 : (fun (a b : Nat) => (s + b) - (s + a)) = fun a b => b - a := by
    funext a b
    omega
  rw [h5]

lemma diffNat_cumIndptr (sizes : List Nat) : diffNat (cumIndptr sizes) = sizes := by
  induction sizes with
  | nil => rfl
  | cons s rest ih =>
    obtain ⟨t, ht⟩ := cumIndptr_cons_zero rest
    show diffNat (0 :: (cumIndptr rest).map (s + ·)) = s :: rest
    have hstep : diffNat (0 :: (cumIndptr rest).map (s + ·)) =
        (s + 0 - 0) :: diffNat ((cumIndptr rest).map (s + ·)) := by
      rw [ht, List.map_cons]
      rfl
    rw [hstep, diffNat_map_add, ih]
    norm_num

lemma forall₂_le_map_add {out t : List Nat} (h : List.Forall₂ (· ≤ ·) out t) (s : Nat) :
    List.Forall₂ (· ≤ ·) out (t.map (s + ·)) := by
  induction h with
  | nil => exact List.Forall₂.nil
  | cons hab _ ih => exact List.Forall₂.cons (Nat.le_trans hab (Nat.le_add_left _ _)) ih

lemma forall₂_le_cumTail {out sizes : List Nat} (h : List.Forall₂ (· ≤ ·) out sizes) :
    List.Forall₂ (· ≤ ·) out (cumIndptr sizes).tail := by
  induction h with
  | nil => exact List.Forall₂.nil
  | @cons o s out sizes hos _ ih =>
    obtain ⟨t, ht⟩ := cumIndptr_cons_zero sizes
    show List.Forall₂ (· ≤ ·) (o :: out) ((cumIndptr sizes).map (s + ·))
    rw [ht, List.map_cons]
    refine List.Forall₂.cons (by omega) ?_
    rw [ht] at ih
    simp only [List.tail_cons] at ih
    exact forall₂_le_map_add ih s

/-- Body of the tail gather: for in-bounds tail lengths it extracts the last
`out_sizes[i]` elements of every series. -/
lemma tails_body {α : Type} :
    ∀ {out_sizes sizes : List Nat}, List.Forall₂ (· ≤ ·) out_sizes sizes →
    ∀ (x : List α), sizes.sum ≤ x.length →
      ((List.zip (cumIndptr sizes).tail out_sizes).map fun p =>
        (x.drop (p.1 - p.2)).take p.2).flatten =
      ((List.zip (seriesOf x sizes) out_sizes).map fun p =>
        p.1.drop (p.1.length - p.2)).flatten := by
  intro out_sizes sizes h
  induction h with
  | nil => intro x _; rfl
  | @cons o s out sizes hos hrest ih =>
    intro x hx
    obtain ⟨t, ht⟩ := cumIndptr_cons_zero sizes
    simp only [List.sum_cons] at hx
    have hs_le : s ≤ x.length := by omega
    show ((List.zip ((cumIndptr sizes).map (s + ·)) (o :: out)).map fun p =>
        (x.drop (p.1 - p.2)).take p.2).flatten = _
    rw [ht, List.map_cons]
    show ((x.drop (s + 0 - o)).take o) ++
        ((List.zip (t.map (s + ·)) out).map fun p =>
          (x.drop (p.1 - p.2)).take p.2).flatten = _
    have hhead : (x.drop (s + 0 - o)).take o = (x.take s).drop ((x.take s).length - o) := by
      rw [List.length_take, Nat.min_eq_left hs_le, List.drop_take]
      have he : s - (s - o) = o := by omega
      rw [he]
      norm_num
    have hbound : List.Forall₂ (· ≤ ·) out t := by
      have hb := forall₂_le_cumTail hrest
      rw [ht] at hb
      simpa using hb
    have hzip : ∀ p ∈ List.zip t out, p.2 ≤ p.1 := by
      intro p hp
      have hflip := hbound.flip
      obtain ⟨-, hmem⟩ := List.forall₂_iff_zip.mp hflip
      exact hmem hp
    have htail : ((List.zip (t.map (s + ·)) out).map fun p =>
        (x.drop (p.1 - p.2)).take p.2).flatten =
        ((List.zip t out).map fun p =>
          ((x.drop s).drop (p.1 - p.2)).take p.2).flatten := by
      rw [List.zip_map_left, List.map_map]
      congr 1
      refine List.map_congr_left fun p hp => ?_
      obtain ⟨p1, p2⟩ := p
      have hple : p2 ≤ p1 := hzip (p1, p2) hp
      simp only [Function.comp_apply, Prod.map_apply, id_eq]
      have he : s + p1 - p2 = s + (p1 - p2) := by omega
      rw [List.drop_drop]
      rw [show (fun x => s + x) p1 - p2 = s + (p1 - p2) from he]
    rw [hhead, htail]
    have hx' : sizes.sum ≤ (x.drop s).length := by
      rw [List.length_drop]
      omega
    have hih := ih (x.drop s) hx'
    rw [ht] at hih
    simp only [List.tail_cons] at hih
    rw [hih]
    rfl

end NixtlaClient

/-- C7: for a ragged array `(x, indptr)` built from per-series sizes and a
per-series tail-length vector `out_sizes`, if every `out_sizes[i]` is at most
series `i`'s length then `_array_tails` returns exactly the last
`out_sizes[i]` elements of each series, concatenated in series order; if some
`out_sizes[i]` exceeds its series' length it raises an error; and `_tail`
(which requests `min(size, n)` per series) always succeeds, truncating every
series to its last `min(size, n)` rows. -/
theorem array_tails_spec {α : Type} (sizes out_sizes : List Nat) (x : List α)
    (hlen : x.length = sizes.sum) :
    (List.Forall₂ (· ≤ ·) out_sizes sizes →
      _array_tails x (cumIndptr sizes) out_sizes =
        Except.ok (((List.zip (seriesOf x sizes) out_sizes).map fun p =>
          p.1.drop (p.1.length - p.2)).flatten)) ∧
    ((∃ p ∈ List.zip out_sizes sizes, p.2 < p.1) →
      _array_tails x (cumIndptr sizes) out_sizes =
        Except.error "out_sizes must be at most the original sizes.") ∧
    (∀ n, tail_data x (cumIndptr sizes) n =
      Except.ok (((List.zip (seriesOf x sizes) (sizes.map fun s => min s n)).map fun p =>
        p.1.drop (p.1.length - p.2)).flatten)) := by
  have hok : ∀ out : List Nat, List.Forall₂ (· ≤ ·) out sizes →
      _array_tails x (cumIndptr sizes) out =
        Except.ok (((List.zip (seriesOf x sizes) out).map fun p =>
          p.1.drop (p.1.length - p.2)).flatten) := by
    intro out hout
    unfold _array_tails
    rw [diffNat_cumIndptr]
    have hguard : (List.zip out sizes).any (fun p => p.2 < p.1) = false := by
      rw [List.any_eq_false]
      intro p hp
      obtain ⟨-, hmem⟩ := List.forall₂_iff_zip.mp hout
      have := hmem hp
      simp only [decide_eq_true_eq]
      omega
    rw [hguard]
    simp only [Bool.false_eq_true, if_false]
    rw [tails_body hout x (le_of_eq hlen.symm)]
  refine ⟨hok out_sizes, ?_, ?_⟩
  · intro ⟨p, hp, hpv⟩
    unfold _array_tails
    rw [diffNat_cumIndptr]
    have hguard : (List.zip out_sizes sizes).any (fun p => p.2 < p.1) = true := by
      rw [List.any_eq_true]
      exact ⟨p, hp, by simpa using hpv⟩
    rw [hguard]
    rfl
  · intro n
    unfold tail_data
    rw [diffNat_cumIndptr]
    refine hok (sizes.map fun s => min s n) ?_
    clear hok hlen
    induction sizes with
    | nil => exact List.Forall₂.nil
    | cons s rest ih => exact List.Forall₂.cons (Nat.min_le_left s n) ih

/-- C7 witness: `x = [1,2,3,4,5]` with sizes `[3, 2]`; tails of lengths
`[2, 1]` give `[2, 3] ++ [5]`, tails of lengths `[4, 1]` are rejected, and
`_tail` with `n = 2` gives `[2, 3] ++ [4, 5]`. -/
theorem array_tails_spec_witness :
    (([1, 2, 3, 4, 5] : List Int).length = ([3, 2] : List Nat).sum) ∧
    List.Forall₂ (· ≤ ·) [2, 1] [3, 2] ∧
    _array_tails ([1, 2, 3, 4, 5] : List Int) (cumIndptr [3, 2]) [2, 1] =
      Except.ok [2, 3, 5] ∧
    _array_tails ([1, 2, 3, 4, 5] : List Int) (cumIndptr [3, 2]) [4, 1] =
      Except.error "out_sizes must be at most the original sizes." ∧
    tail_data ([1, 2, 3, 4, 5] : List Int) (cumIndptr [3, 2]) 2 =
      Except.ok [2, 3, 4, 5] :=
  ⟨by decide, by decide,
   (array_tails_spec [3, 2] [2, 1] [1, 2, 3, 4, 5] (by decide)).1 (by decide),
   (array_tails_spec [3, 2] [4, 1] [1, 2, 3, 4, 5] (by decide)).2.1
     ⟨(4, 3), by decide, by decide⟩,
   (array_tails_spec [3, 2] [0] [1, 2, 3, 4, 5] (by decide)).2.2 2⟩

namespace NixtlaClient

/-! ## Frequency validation (`_run_validations`, lines 1077-1109)

For a string or integer frequency the code builds
`expected_ids_times = id_time_grid(df, freq, start="per_serie",
end="per_serie")` and accepts iff `len(df) == len(expected_ids_times)`
(line 1087). -/

/-- Modelled from the spec: utilsforecast's `id_time_grid` (an external
dependency, not part of this repository) builds "an idealized dense grid
built from each series' first/last timestamp and the frequency step"; only
its row count is consumed.  Timestamps are embedded as integers: integer
frequencies step arithmetically, and calendar-string frequencies step through
a calendar grid that is order-isomorphic to arithmetic stepping, so the row
count is the same. -/
def gridCountOfSeries (freq : Nat) (times : List Int) : Nat :=
  match times.head?, times.getLast? with
  | some a, some b => ((b - a) / (freq : Int)).toNat + 1
  | _, _ => 0

/-- Total row count of the idealized dense per-series grid. -/
def expectedGridCount (freq : Nat) (series : List (List Int)) : Nat :=
  (series.map (gridCountOfSeries freq)).sum

/-- The frequency check of `_run_validations` (lines 1078-1087):
`freq_ok = len(df) == len(expected_ids_times)`; `_run_validations` raises
exactly when this is false (lines 1101-1109). -/
def freq_ok (freq : Nat) (series : List (List Int)) : Bool :=
  (series.map List.length).sum == expectedGridCount freq series

/-- A complete regular series: `n` timestamps from `a` in steps of `f`. -/
def arithGrid (a : Int) (f : Nat) (n : Nat) : List Int :=
  (List.range n).map fun (i : Nat) => a + (i : ℤ) * (f : ℤ)

/-- A regular series of `n` points with the single interior point at position
`p` missing: a one-step gap. -/
def gappedGrid (a : Int) (f : Nat) (n p : Nat) : List Int :=
  arithGrid a f p ++ arithGrid (a + (p + 1) * f) f (n - p - 1)

lemma arithGrid_length (a : Int) (f n : Nat) : (arithGrid a f n).length = n := by
  simp [arithGrid]

lemma arithGrid_ne_nil (a : Int) (f : Nat) {n : Nat} (hn : 1 ≤ n) :
    arithGrid a f n ≠ [] := by
  intro hcon
  have := congrArg List.length hcon
  rw [arithGrid_length] at this
  simp at this
  omega

lemma arithGrid_head (a : Int) (f : Nat) {n : Nat} (hn : 1 ≤ n) :
    (arithGrid a f n).head? = some a := by
  obtain ⟨m, rfl⟩ : ∃ m, n = m + 1 := ⟨n - 1, by omega⟩
  unfold arithGrid
  rw [List.range_succ_eq_map, List.map_cons]
  simp

lemma arithGrid_getLast (a : Int) (f : Nat) {n : Nat} (hn : 1 ≤ n) :
    (arithGrid a f n).getLast? = some (a + ((n - 1 : Nat) : ℤ) * f) := by
  rw [List.getLast?_eq_getElem?, arithGrid_length]
  unfold arithGrid
  rw [List.getElem?_map, List.getElem?_range (by omega)]
  rfl

lemma gridCount_arithGrid {f : Nat} (hf : 1 ≤ f) (a : Int) {n : Nat} (hn : 1 ≤ n) :
    gridCountOfSeries f (arithGrid a f n) = n := by
  unfold gridCountOfSeries
  rw [arithGrid_head a f hn, arithGrid_getLast a f hn]
  have hfz : (f : ℤ) ≠ 0 := by
    intro hcon
    have : f = 0 := by exact_mod_cast hcon
    omega
  have hdiv : (a + ((n - 1 : Nat) : ℤ) * f - a) / (f : ℤ) = ((n - 1 : Nat) : ℤ) := by
    have : a + ((n - 1 : Nat) : ℤ) * f - a = ((n - 1 : Nat) : ℤ) * f := by ring
    rw [this, Int.mul_ediv_cancel _ hfz]
  show ((a + ((n - 1 : Nat) : ℤ) * f - a) / (f : ℤ)).toNat + 1 = n
  rw [hdiv, Int.toNat_natCast]
  omega

end NixtlaClient

/-- C6: for a string or integer frequency, validation fails exactly when the
actual row count differs from the row count of the idealized dense per-series
grid (first to last timestamp in frequency steps); in particular any set of
complete regular series passes, and a series with a one-step gap at any
interior position fails. -/
theorem freq_validation (f : Nat) (hf : 1 ≤ f) :
    (∀ series : List (List Int),
      (freq_ok f series = false ↔
        (series.map List.length).sum ≠ expectedGridCount f series)) ∧
    (∀ series : List (List Int),
      (∀ ts ∈ series, ∃ a n, 1 ≤ n ∧ ts = arithGrid a f n) →
      freq_ok f series = true) ∧
    (∀ (a : Int) (n p : Nat), 1 ≤ p → p + 2 ≤ n →
      freq_ok f [gappedGrid a f n p] = false) := by
  refine ⟨?_, ?_, ?_⟩
  · intro series
    unfold freq_ok
    constructor
    · intro h hcon
      rw [hcon] at h
      simp at h
    · intro h
      simpa using h
  · intro series hreg
    unfold freq_ok expectedGridCount
    have : series.map List.length = series.map (gridCountOfSeries f) := by
      refine List.map_congr_left fun ts hts => ?_
      obtain ⟨a, n, hn, rfl⟩ := hreg ts hts
      rw [arithGrid_length, gridCount_arithGrid hf a hn]
    rw [this]
    simp
  · intro a n p hp hn
    unfold freq_ok expectedGridCount gappedGrid
    have hlen : (arithGrid a f p ++ arithGrid (a + (p + 1) * f) f (n - p - 1)).length
        = n - 1 := by
      rw [List.length_append, arithGrid_length, arithGrid_length]
      omega
    have hcount : gridCountOfSeries f
        (arithGrid a f p ++ arithGrid (a + (p + 1) * f) f (n - p - 1)) = n := by
      unfold gridCountOfSeries
      have hhead : (arithGrid a f p ++ arithGrid (a + (p + 1) * f) f (n - p - 1)).head? =
          some a := by
        rw [List.head?_append_of_ne_nil _ (arithGrid_ne_nil a f hp)]
        · exact arithGrid_head a f hp
      have hlast : (arithGrid a f p ++ arithGrid (a + (p + 1) * f) f (n - p - 1)).getLast? =
          some (a + ((n - 1 : Nat) : ℤ) * f) := by
        rw [List.getLast?_append_of_ne_nil _ (arithGrid_ne_nil _ f (by omega))]
        rw [arithGrid_getLast _ f (by omega)]
        congr 1
        push_cast [show n - p - 1 - 1 = n - p - 2 from by omega]
        have hcast : ((n - p - 2 : Nat) : ℤ) = (n : ℤ) - p - 2 := by omega
        have hcast2 : ((n - 1 : Nat) : ℤ) = (n : ℤ) - 1 := by omega
        rw [hcast, hcast2]
        ring
      rw [hhead, hlast]
      have hfz : (f : ℤ) ≠ 0 := by
        intro hcon
        have : f = 0 := by exact_mod_cast hcon
        omega
      show ((a + ((n - 1 : Nat) : ℤ) * f - a) / (f : ℤ)).toNat + 1 = n
      have hdiv : (a + ((n - 1 : Nat) : ℤ) * f - a) / (f : ℤ) = ((n - 1 : Nat) : ℤ) := by
        have he : a + ((n - 1 : Nat) : ℤ) * f - a = ((n - 1 : Nat) : ℤ) * f := by ring
        rw [he, Int.mul_ediv_cancel _ hfz]
      rw [hdiv, Int.toNat_natCast]
      omega
    simp only [List.map_cons, List.map_nil, List.sum_cons, List.sum_nil, hlen, hcount]
    simp only [Nat.add_zero, beq_eq_false_iff_ne, ne_eq]
    omega

/-- C6 witness: with unit frequency, the complete series `[0,1,2,3,4]` passes
and the gapped series `[0,1,3,4]` (point 2 missing) fails. -/
theorem freq_validation_witness :
    (1 : Nat) ≤ 1 ∧
    freq_ok 1 [[0, 1, 2, 3, 4]] = true ∧
    freq_ok 1 [gappedGrid 0 1 5 2] = false ∧
    gappedGrid 0 1 5 2 = [0, 1, 3, 4] :=
  ⟨by decide,
   by
    have h := (freq_validation 1 (by decide)).2.1 [[0, 1, 2, 3, 4]]
      (by
        intro ts hts
        simp only [List.mem_singleton] at hts
        subst hts
        exact ⟨0, 5, by decide, by decide⟩)
    exact h,
   (freq_validation 1 (by decide)).2.2 0 5 2 (by decide) (by decide),
   by decide⟩

namespace NixtlaClient

/-! ## Retry policy (`_retry_strategy`, lines 170-199)

`retry(retry=retry_if_exception(should_retry), wait=wait_fixed(retry_interval),
stop=stop_after_attempt(max_retries) | stop_after_delay(max_wait_time),
reraise=True)`.  `outcome k` is attempt `k`'s result (attempts numbered from
1) and `elapsed k` is the wall-clock time since the first attempt began when
attempt `k` finishes — the clock `stop_after_delay` reads; it includes the
attempt durations and the fixed `wait_fixed` sleeps, whose arithmetic is
otherwise unobservable here.  After a failed attempt tenacity first consults
the retry predicate (a non-retriable exception is final and, with
`reraise=True`, re-raised unchanged), then the stop conditions (attempt count
reached `max_retries`, or elapsed time reached `max_wait_time`), and only
otherwise retries. -/

/-- One run of the tenacity-wrapped call; returns the final outcome and the
number of the last attempt made. -/
def retryLoop {α : Type} (outcome : Nat → Except Exc α) (elapsed : Nat → Nat)
    (max_retries max_wait_time : Nat) (attempt : Nat) : Except Exc α × Nat :=
  match outcome attempt with
  | Except.ok a => (Except.ok a, attempt)
  | Except.error e =>
    if should_retry e = false then (Except.error e, attempt)
    else if hstop : max_retries ≤ attempt then (Except.error e, attempt)
    else if max_wait_time ≤ elapsed attempt then (Except.error e, attempt)
    else retryLoop outcome elapsed max_retries max_wait_time (attempt + 1)
termination_by max_retries - attempt
decreasing_by omega

/-- `_retry_strategy(...)` applied to one call: attempts start at 1. -/
def retry_strategy_run {α : Type} (outcome : Nat → Except Exc α) (elapsed : Nat → Nat)
    (max_retries max_wait_time : Nat) : Except Exc α × Nat :=
  retryLoop outcome elapsed max_retries max_wait_time 1

lemma retryLoop_spec {α : Type} (outcome : Nat → Except Exc α) (elapsed : Nat → Nat)
    (mr mwt : Nat) :
    ∀ (k start : Nat), mr - start ≤ k →
      (start ≤ (retryLoop outcome elapsed mr mwt start).2) ∧
      ((retryLoop outcome elapsed mr mwt start).2 ≤ max start mr) ∧
      (∀ e, (retryLoop outcome elapsed mr mwt start).1 = Except.error e →
        outcome (retryLoop outcome elapsed mr mwt start).2 = Except.error e) ∧
      (∀ a, (retryLoop outcome elapsed mr mwt start).1 = Except.ok a →
        outcome (retryLoop outcome elapsed mr mwt start).2 = Except.ok a) ∧
      (∀ n, start ≤ n → n < (retryLoop outcome elapsed mr mwt start).2 →
        ∃ e, outcome n = Except.error e ∧ should_retry e = true ∧
          n < mr ∧ elapsed n < mwt) ∧
      (∀ e, (retryLoop outcome elapsed mr mwt start).1 = Except.error e →
        should_retry e = false ∨ mr ≤ (retryLoop outcome elapsed mr mwt start).2 ∨
          mwt ≤ elapsed (retryLoop outcome elapsed mr mwt start).2) := by
  intro k
  induction k with
  | zero =>
    intro start hk
    have hms : mr ≤ start := by omega
    rw [retryLoop]
    cases houtcome : outcome start with
    | ok a =>
      dsimp only
      refine ⟨le_refl _, le_max_left .., ?_, ?_, ?_, ?_⟩
      · intro e he; exact absurd he (by simp)
      · intro a' ha'
        rw [houtcome]
        exact ha'
      · intro n h1 h2; omega
      · intro e he; exact absurd he (by simp)
    | error e =>
      dsimp only
      by_cases hsr : should_retry e = false
      · rw [if_pos hsr]
        refine ⟨le_refl _, le_max_left .., ?_, ?_, ?_, ?_⟩
        · intro e' he'
          rw [houtcome]
          exact congrArg Except.error (Except.error.inj he')
        · intro a' ha'; exact absurd ha' (by simp)
        · intro n h1 h2; dsimp only at h2; omega
        · intro e' he'
          left
          rw [← Except.error.inj he']
          exact hsr
      · rw [if_neg hsr, dif_pos hms]
        refine ⟨le_refl _, le_max_left .., ?_, ?_, ?_, ?_⟩
        · intro e' he'
          rw [houtcome]
          exact congrArg Except.error (Except.error.inj he')
        · intro a' ha'; exact absurd ha' (by simp)
        · intro n h1 h2; dsimp only at h2; omega
        · intro e' _
          right; left
          exact hms
  | succ k ih =>
    intro start hk
    rw [retryLoop]
    cases houtcome : outcome start with
    | ok a =>
      dsimp only
      refine ⟨le_refl _, le_max_left .., ?_, ?_, ?_, ?_⟩
      · intro e he; exact absurd he (by simp)
      · intro a' ha'
        rw [houtcome]
        exact ha'
      · intro n h1 h2; omega
      · intro e he; exact absurd he (by simp)
    | error e =>
      dsimp only
      by_cases hsr : should_retry e = false
      · rw [if_pos hsr]
        refine ⟨le_refl _, le_max_left .., ?_, ?_, ?_, ?_⟩
        · intro e' he'
          rw [houtcome]
          exact congrArg Except.error (Except.error.inj he')
        · intro a' ha'; exact absurd ha' (by simp)
        · intro n h1 h2; dsimp only at h2; omega
        · intro e' he'
          left
          rw [← Except.error.inj he']
          exact hsr
      · rw [if_neg hsr]
        by_cases hms : mr ≤ start
        · rw [dif_pos hms]
          refine ⟨le_refl _, le_max_left .., ?_, ?_, ?_, ?_⟩
          · intro e' he'
            rw [houtcome]
            exact congrArg Except.error (Except.error.inj he')
          · intro a' ha'; exact absurd ha' (by simp)
          · intro n h1 h2; dsimp only at h2; omega
          · intro e' _
            right; left
            exact hms
        · rw [dif_neg hms]
          by_cases htm : mwt ≤ elapsed start
          · rw [if_pos htm]
            refine ⟨le_refl _, le_max_left .., ?_, ?_, ?_, ?_⟩
            · intro e' he'
              rw [houtcome]
              exact congrArg Except.error (Except.error.inj he')
            · intro a' ha'; exact absurd ha' (by simp)
            · intro n h1 h2; dsimp only at h2; omega
            · intro e' _
              right; right
              exact htm
          · rw [if_neg htm]
            obtain ⟨ih1, ih2, ih3, ih4, ih5, ih6⟩ := ih (start + 1) (by omega)
            refine ⟨by omega, by omega, ih3, ih4, ?_, ih6⟩
            intro n h1 h2
            by_cases hn : n = start
            · subst hn
              refine ⟨e, houtcome, ?_, by omega, by omega⟩
              cases hb : should_retry e with
              | false => exact absurd hb hsr
              | true => rfl
            · exact ih5 n (by omega) h2

end NixtlaClient
/-- C3: an attempt is retried iff it fails with one of the enumerated
transient exceptions or an `ApiError` whose status is in
{408, 409, 429, 502, 503, 504}; the run makes at most `max_retries` attempts
and also stops once the elapsed clock reaches `max_wait_time`, whichever
happens first; on failure the last attempt's exception is re-raised
unchanged; any other exception propagates immediately (every attempt before
the last failed with a retriable exception inside both budgets). -/
theorem retry_policy {α : Type} (outcome : Nat → Except Exc α) (elapsed : Nat → Nat)
    (max_retries max_wait_time : Nat) (hmr : 1 ≤ max_retries) :
    (∀ e, should_retry e = true ↔
      (e = Exc.connectionResetError ∨ e = Exc.httpcoreConnectError ∨
       e = Exc.httpcoreRemoteProtocolError ∨ e = Exc.httpxConnectTimeout ∨
       e = Exc.httpxReadError ∨ e = Exc.httpxRemoteProtocolError ∨
       e = Exc.httpxReadTimeout ∨ e = Exc.httpxPoolTimeout ∨
       e = Exc.httpxWriteError ∨ e = Exc.httpxWriteTimeout ∨
       (∃ c b, e = Exc.apiError c b ∧ c ∈ retriable_codes))) ∧
    (1 ≤ (retry_strategy_run outcome elapsed max_retries max_wait_time).2 ∧
      (retry_strategy_run outcome elapsed max_retries max_wait_time).2 ≤ max_retries) ∧
    (∀ e, (retry_strategy_run outcome elapsed max_retries max_wait_time).1 =
        Except.error e →
      outcome (retry_strategy_run outcome elapsed max_retries max_wait_time).2 =
        Except.error e) ∧
    (∀ a, (retry_strategy_run outcome elapsed max_retries max_wait_time).1 =
        Except.ok a →
      outcome (retry_strategy_run outcome elapsed max_retries max_wait_time).2 =
        Except.ok a) ∧
    (∀ n, 1 ≤ n → n < (retry_strategy_run outcome elapsed max_retries max_wait_time).2 →
      ∃ e, outcome n = Except.error e ∧ should_retry e = true ∧
        n < max_retries ∧ elapsed n < max_wait_time) ∧
    (∀ e, (retry_strategy_run outcome elapsed max_retries max_wait_time).1 =
        Except.error e →
      should_retry e = false ∨
        max_retries ≤ (retry_strategy_run outcome elapsed max_retries max_wait_time).2 ∨
        max_wait_time ≤
          elapsed (retry_strategy_run outcome elapsed max_retries max_wait_time).2) := by
  unfold retry_strategy_run
  obtain ⟨h1, h2, h3, h4, h5, h6⟩ :=
    retryLoop_spec outcome elapsed max_retries max_wait_time max_retries 1 (by omega)
  refine ⟨?_, ⟨h1, by omega⟩, h3, h4, h5, h6⟩
  intro e
  cases e with
  | apiError c b =>
    show retriable_codes.contains c = true ↔ _
    constructor
    · intro hmem
      exact Or.inr (Or.inr (Or.inr (Or.inr (Or.inr (Or.inr (Or.inr (Or.inr
        (Or.inr (Or.inr ⟨c, b, rfl, List.elem_iff.mp hmem⟩)))))))))
    · intro hdis
      rcases hdis with h | h | h | h | h | h | h | h | h | h | ⟨c', b', heq, hmem⟩
      all_goals try exact absurd h (by simp)
      injection heq with hc hb
      subst hc
      exact List.elem_iff.mpr hmem
  | otherError d =>
    constructor
    · intro hcon; exact absurd hcon (by simp [should_retry])
    · intro hdis
      rcases hdis with h | h | h | h | h | h | h | h | h | h | ⟨c', b', heq, -⟩
      all_goals first
        | exact absurd h (by simp)
        | exact absurd heq (by simp)
  | connectionResetError => simp [should_retry]
  | httpcoreConnectError => simp [should_retry]
  | httpcoreRemoteProtocolError => simp [should_retry]
  | httpxConnectTimeout => simp [should_retry]
  | httpxReadError => simp [should_retry]
  | httpxRemoteProtocolError => simp [should_retry]
  | httpxReadTimeout => simp [should_retry]
  | httpxPoolTimeout => simp [should_retry]
  | httpxWriteError => simp [should_retry]
  | httpxWriteTimeout => simp [should_retry]

/-- C3 witness: a stub that fails retriably on attempts 1-3 and succeeds on
attempt 4, with `max_retries = 5` and `max_wait_time = 100`: the run returns
the success at attempt 4, within the attempt bound. -/
theorem retry_policy_witness :
    (1 : Nat) ≤ 5 ∧
    (1 ≤ (retry_strategy_run
        (fun n => if n < 4 then Except.error Exc.httpxReadTimeout else Except.ok (42 : Nat))
        (fun n => n) 5 100).2 ∧
      (retry_strategy_run
        (fun n => if n < 4 then Except.error Exc.httpxReadTimeout else Except.ok (42 : Nat))
        (fun n => n) 5 100).2 ≤ 5) ∧
    retry_strategy_run
        (fun n => if n < 4 then Except.error Exc.httpxReadTimeout else Except.ok (42 : Nat))
        (fun n => n) 5 100 = (Except.ok 42, 4) :=
  ⟨by decide,
   (retry_policy
      (fun n => if n < 4 then Except.error Exc.httpxReadTimeout else Except.ok (42 : Nat))
      (fun n => n) 5 100 (by decide)).2.1,
   by
    unfold retry_strategy_run
    rw [retryLoop]
    norm_num [should_retry]
    rw [retryLoop]
    norm_num [should_retry]
    rw [retryLoop]
    norm_num [should_retry]
    rw [retryLoop]
    norm_num⟩

namespace NixtlaClient

/-! ## Level / quantile duality (`_prepare_level_and_quantiles` lines 438-450,
`_maybe_convert_level_to_quantiles` lines 453-472)

Quantiles are embedded as exact rationals (Python floats; the arithmetic
`100 - 200*q` and `q*100` is modelled exactly). -/

/-- Python `int(...)`: truncation toward zero. -/
def pyInt (q : ℚ) : ℤ := if 0 ≤ q then ⌊q⌋ else ⌈q⌉

/-- Rendering of a Python int inside an f-string. -/
def intStr (z : ℤ) : String :=
  if z < 0 then "-" ++ Nat.repr z.natAbs else Nat.repr z.natAbs

/-- `_prepare_level_and_quantiles` (lines 438-450). -/
def _prepare_level_and_quantiles (level : Option (List ℚ)) (quantiles : Option (List ℚ)) :
    Except String (Option (List ℚ) × Option (List ℚ)) :=
  match level, quantiles with
  | some _, some _ =>
    Except.error "You should provide `level` or `quantiles`, but not both."
  | _, none => Except.ok (level, none)
  | _, some qs =>
    if qs.all fun q => decide (0 < q) && decide (q < 1) then
      Except.ok (some (qs.map fun q => (((pyInt (100 - 200 * q)).natAbs : ℤ) : ℚ)), some qs)
    else Except.error "`quantiles` should be floats between 0 and 1."

/-- A dataframe for the conversion step: ordered columns, each a name paired
with its values. -/
abbrev Df : Type := List (String × List ℚ)

def dfLookup (df : Df) (c : String) : List ℚ :=
  ((df.find? fun p => p.1 == c).map Prod.snd).getD []

def dfHasCol (df : Df) (c : String) : Bool := df.any fun p => p.1 == c

/-- pandas-style column assignment: replace in place when the column exists,
append otherwise. -/
def dfAssign (df : Df) (c : String) (v : List ℚ) : Df :=
  if dfHasCol df c then df.map fun p => if p.1 == c then (c, v) else p
  else df ++ [(c, v)]

/-- `df[cols]` column selection. -/
def dfSelect (df : Df) (cols : List String) : Df :=
  cols.map fun c => (c, dfLookup df c)

def charsStartWith : List Char → List Char → Bool
  | [], _ => true
  | _ :: _, [] => false
  | a :: as, b :: bs => a == b && charsStartWith as bs

def charsContain : List Char → List Char → Bool
  | [], pat => charsStartWith pat []
  | a :: rest, pat => charsStartWith pat (a :: rest) || charsContain rest pat

/-- Python's `sub in s` substring test. -/
def strContains (s sub : String) : Bool := charsContain s.data sub.data

def insertSorted (q : ℚ) : List ℚ → List ℚ
  | [] => [q]
  | x :: xs => if q ≤ x then q :: x :: xs else x :: insertSorted q xs

/-- Python's `sorted(...)` (any stable ascending sort). -/
def sortQ : List ℚ → List ℚ
  | [] => []
  | x :: xs => insertSorted x (sortQ xs)

/-- The source column a quantile is read from (lines 462-468): the point
forecast for `q = 0.5`; otherwise with `lv = int(100 - 200*q)`, the `lo`
bound of level `|lv|` when `lv > 0` and the `hi` bound when `lv ≤ 0`. -/
def quantileCol (q : ℚ) : String :=
  if q = 1 / 2 then "TimeGPT"
  else
    let lv := pyInt (100 - 200 * q)
    let side := if 0 < lv then "lo" else "hi"
    "TimeGPT-" ++ side ++ "-" ++ Nat.repr lv.natAbs

/-- The output column name `f"TimeGPT-q-{int(q * 100)}"` (line 469). -/
def qColName (q : ℚ) : String := "TimeGPT-q-" ++ intStr (pyInt (q * 100))

/-- The `for q in sorted(quantiles)` loop body (lines 461-471), carrying the
evolving dataframe and `out_cols`. -/
def convertLoop : List ℚ → Df → List String → Df × List String
  | [], df, out => (df, out)
  | q :: rest, df, out =>
    convertLoop rest (dfAssign df (qColName q) (dfLookup df (quantileCol q)))
      (out ++ [qColName q])

/-- `_maybe_convert_level_to_quantiles` (lines 453-472). -/
def _maybe_convert_level_to_quantiles (df : Df) (quantiles : Option (List ℚ)) : Df :=
  match quantiles with
  | none => df
  | some qs =>
    let out0 := (df.map Prod.fst).filter fun c =>
      !(strContains c "-lo-") && !(strContains c "-hi-")
    let res := convertLoop (sortQ qs) df out0
    dfSelect res.1 res.2

end NixtlaClient

/-- C5 counterexample: for `q = 0.499 < 0.5` the truncated level
`int(100 - 200*q) = 0` is not positive, so the quantile column is taken from
the **upper** bound column `TimeGPT-hi-0` (value 2) and not from the lower
bound column `TimeGPT-lo-0` (value 1) that the claim prescribes for
`q < 0.5`. -/
theorem quantile_side_counterexample :
    ((499 : ℚ) / 1000 < 1 / 2) ∧
    dfLookup [("TimeGPT", [10]), ("TimeGPT-lo-0", [1]), ("TimeGPT-hi-0", [2])]
      "TimeGPT-lo-0" = [1] ∧
    dfLookup
      (_maybe_convert_level_to_quantiles
        [("TimeGPT", [10]), ("TimeGPT-lo-0", [1]), ("TimeGPT-hi-0", [2])]
        (some [499 / 1000]))
      "TimeGPT-q-49" = [2] ∧
    ([2] : List ℚ) ≠ [1] := by
  have hq : ((499 : ℚ) / 1000) ≠ 1 / 2 := by norm_num
  have hlv : pyInt (100 - 200 * ((499 : ℚ) / 1000)) = 0 := by
    unfold pyInt
    rw [if_pos (by norm_num)]
    rw [show (100 - 200 * ((499 : ℚ) / 1000)) = 1 / 5 by norm_num]
    rw [Int.floor_eq_iff]
    norm_num
  have hcol : quantileCol ((499 : ℚ) / 1000) = "TimeGPT-hi-0" := by
    unfold quantileCol
    rw [if_neg hq]
    simp only [hlv]
    norm_num
    rfl
  have hq100 : pyInt (((499 : ℚ) / 1000) * 100) = 49 := by
    unfold pyInt
    rw [if_pos (by norm_num)]
    rw [show ((499 : ℚ) / 1000) * 100 = 499 / 10 by norm_num]
    rw [Int.floor_eq_iff]
    norm_num
  have hqc : qColName ((499 : ℚ) / 1000) = "TimeGPT-q-49" := by
    unfold qColName intStr
    rw [hq100]
    norm_num
    rfl
  refine ⟨by norm_num, rfl, ?_, by decide⟩
  show dfLookup
      (_maybe_convert_level_to_quantiles
        [("TimeGPT", [10]), ("TimeGPT-lo-0", [1]), ("TimeGPT-hi-0", [2])]
        (some [499 / 1000]))
      "TimeGPT-q-49" = [2]
  unfold _maybe_convert_level_to_quantiles
  show dfLookup (dfSelect
      (convertLoop (sortQ [499 / 1000])
        [("TimeGPT", [10]), ("TimeGPT-lo-0", [1]), ("TimeGPT-hi-0", [2])] _).1
      (convertLoop (sortQ [499 / 1000])
        [("TimeGPT", [10]), ("TimeGPT-lo-0", [1]), ("TimeGPT-hi-0", [2])] _).2)
      "TimeGPT-q-49" = [2]
  rw [show sortQ [499 / 1000] = [499 / 1000] from rfl]
  simp only [convertLoop]
  rw [hcol, hqc]
  rfl

namespace NixtlaClient

lemma dfHasCol_false_find_none {df : Df} {c : String} (h : dfHasCol df c = false) :
    df.find? (fun p => p.1 == c) = none := by
  rw [List.find?_eq_none]
  intro x hx
  unfold dfHasCol at h
  rw [List.any_eq_false] at h
  exact h x hx

lemma dfLookup_assign_self {df : Df} {c : String} {v : List ℚ}
    (h : dfHasCol df c = false) :
    dfLookup (dfAssign df c v) c = v := by
  unfold dfAssign
  rw [if_neg (by simp [h])]
  unfold dfLookup
  rw [List.find?_append, dfHasCol_false_find_none h]
  simp

lemma dfLookup_assign_ne {df : Df} {c v c'} (h : c' ≠ c) :
    dfLookup (dfAssign df c v) c' = dfLookup df c' := by
  unfold dfAssign
  by_cases hc : dfHasCol df c
  · rw [if_pos hc]
    unfold dfLookup
    rw [List.find?_map]
    have hfg : ((fun p : String × List ℚ => p.1 == c') ∘ fun p =>
        if p.1 == c then (c, v) else p) = fun p : String × List ℚ => p.1 == c' := by
      funext p
      by_cases hp : p.1 = c
      · have h1 : (p.1 == c) = true := by simp [hp]
        have h2 : (c == c') = false := beq_eq_false_iff_ne.mpr (Ne.symm h)
        have h3 : (p.1 == c') = false := by
          rw [hp]
          exact h2
        simp [Function.comp, h1, h2, h3]
      · have h1 : (p.1 == c) = false := by simp [hp]
        simp [Function.comp, h1]
    rw [hfg]
    cases hfind : df.find? (fun p => p.1 == c') with
    | none => rfl
    | some a =>
      have hPa := List.find?_some hfind
      have ha1 : a.1 = c' := by simpa using hPa
      have hcond : (a.1 == c) = false := by
        rw [ha1]
        exact beq_eq_false_iff_ne.mpr h
      show (if (a.1 == c) = true then (c, v) else a).2 = a.2
      rw [hcond]
      simp
  · rw [if_neg hc]
    unfold dfLookup
    rw [List.find?_append]
    have hnone : List.find? (fun p => p.1 == c') [(c, v)] = none := by
      simp
      exact (Ne.symm h)
    rw [hnone]
    simp

lemma dfLookup_select {df : Df} {cols : List String} {c : String} (h : c ∈ cols) :
    dfLookup (dfSelect df cols) c = dfLookup df c := by
  induction cols with
  | nil => cases h
  | cons c0 rest ih =>
    show dfLookup ((c0, dfLookup df c0) :: dfSelect df rest) c = dfLookup df c
    by_cases hcc : c0 = c
    · subst hcc
      unfold dfLookup
      rw [List.find?_cons_of_pos _ (by simp)]
      rfl
    · unfold dfLookup
      rw [List.find?_cons_of_neg _ (by simp [hcc])]
      have hcr : c ∈ rest := by
        rcases List.mem_cons.mp h with h1 | h2
        · exact absurd h1.symm hcc
        · exact h2
      exact ih hcr

lemma dfHasCol_assign_fresh {df : Df} {c0 : String} {v : List ℚ}
    (h : dfHasCol df c0 = false) (c : String) :
    dfHasCol (dfAssign df c0 v) c = (dfHasCol df c || (c0 == c)) := by
  unfold dfAssign
  rw [if_neg (by simp [h])]
  unfold dfHasCol
  rw [List.any_append]
  simp

lemma convertLoop_out_mem :
    ∀ (qs : List ℚ) (df : Df) (out : List String) (c : String),
      c ∈ out → c ∈ (convertLoop qs df out).2 := by
  intro qs
  induction qs with
  | nil => intro df out c hc; exact hc
  | cons q0 rest ih =>
    intro df out c hc
    exact ih _ _ c (by simp [hc])

lemma convertLoop_frame :
    ∀ (qs : List ℚ) (df : Df) (out : List String) (c : String),
      (∀ q ∈ qs, dfHasCol df (qColName q) = false) →
      (List.map qColName qs).Nodup →
      (∀ q ∈ qs, c ≠ qColName q) →
      dfLookup (convertLoop qs df out).1 c = dfLookup df c := by
  intro qs
  induction qs with
  | nil => intro df out c _ _ _; rfl
  | cons q0 rest ih =>
    intro df out c hfresh hnodup hne
    have hfresh0 : dfHasCol df (qColName q0) = false :=
      hfresh q0 (List.mem_cons_self q0 rest)
    have hhead : qColName q0 ∉ rest.map qColName :=
      (List.nodup_cons.mp (by simpa using hnodup)).1
    have hf' : ∀ q ∈ rest,
        dfHasCol (dfAssign df (qColName q0) (dfLookup df (quantileCol q0)))
          (qColName q) = false := by
      intro q hq
      rw [dfHasCol_assign_fresh hfresh0, hfresh q (List.mem_cons_of_mem q0 hq)]
      simp only [Bool.false_or, beq_eq_false_iff_ne, ne_eq]
      intro hcon
      exact hhead (hcon ▸ List.mem_map_of_mem qColName hq)
    have step := ih (dfAssign df (qColName q0) (dfLookup df (quantileCol q0)))
      (out ++ [qColName q0]) c hf'
      ((List.nodup_cons.mp (by simpa using hnodup)).2)
      (fun q hq => hne q (List.mem_cons_of_mem q0 hq))
    show dfLookup (convertLoop rest
      (dfAssign df (qColName q0) (dfLookup df (quantileCol q0)))
      (out ++ [qColName q0])).1 c = dfLookup df c
    rw [step]
    exact dfLookup_assign_ne (hne q0 (List.mem_cons_self q0 rest))

lemma convertLoop_value :
    ∀ (qs : List ℚ) (df : Df) (out : List String),
      (∀ q ∈ qs, dfHasCol df (qColName q) = false) →
      (∀ q q', q ∈ qs → q' ∈ qs → quantileCol q ≠ qColName q') →
      (List.map qColName qs).Nodup →
      ∀ q ∈ qs,
        dfLookup (convertLoop qs df out).1 (qColName q) = dfLookup df (quantileCol q) ∧
        qColName q ∈ (convertLoop qs df out).2 := by
  intro qs
  induction qs with
  | nil => intro df out _ _ _ q hq; cases hq
  | cons q0 rest ih =>
    intro df out hfresh hsep hnodup q hq
    have hfresh0 : dfHasCol df (qColName q0) = false :=
      hfresh q0 (List.mem_cons_self q0 rest)
    have hhead : qColName q0 ∉ rest.map qColName :=
      (List.nodup_cons.mp (by simpa using hnodup)).1
    have hn' : (rest.map qColName).Nodup :=
      (List.nodup_cons.mp (by simpa using hnodup)).2
    have hf' : ∀ q ∈ rest,
        dfHasCol (dfAssign df (qColName q0) (dfLookup df (quantileCol q0)))
          (qColName q) = false := by
      intro q hq'
      rw [dfHasCol_assign_fresh hfresh0, hfresh q (List.mem_cons_of_mem q0 hq')]
      simp only [Bool.false_or, beq_eq_false_iff_ne, ne_eq]
      intro hcon
      exact hhead (hcon ▸ List.mem_map_of_mem qColName hq')
    have hs' : ∀ q q', q ∈ rest → q' ∈ rest → quantileCol q ≠ qColName q' :=
      fun q q' h1 h2 =>
        hsep q q' (List.mem_cons_of_mem q0 h1) (List.mem_cons_of_mem q0 h2)
    rcases List.mem_cons.mp hq with heq | hqrest
    · rw [heq]
      constructor
      · show dfLookup (convertLoop rest
            (dfAssign df (qColName q0) (dfLookup df (quantileCol q0)))
            (out ++ [qColName q0])).1 (qColName q0) = dfLookup df (quantileCol q0)
        have hne : ∀ q' ∈ rest, qColName q0 ≠ qColName q' := by
          intro q' hq' hcon
          exact hhead (hcon ▸ List.mem_map_of_mem qColName hq')
        rw [convertLoop_frame rest _ _ (qColName q0) hf' hn' hne]
        exact dfLookup_assign_self hfresh0
      · show qColName q0 ∈ (convertLoop rest
            (dfAssign df (qColName q0) (dfLookup df (quantileCol q0)))
            (out ++ [qColName q0])).2
        exact convertLoop_out_mem _ _ _ _
          (List.mem_append.mpr (Or.inr (List.mem_singleton.mpr rfl)))
    · obtain ⟨hval, hmem⟩ := ih
        (dfAssign df (qColName q0) (dfLookup df (quantileCol q0)))
        (out ++ [qColName q0]) hf' hs' hn' q hqrest
      refine ⟨?_, hmem⟩
      show dfLookup (convertLoop rest
          (dfAssign df (qColName q0) (dfLookup df (quantileCol q0)))
          (out ++ [qColName q0])).1 (qColName q) = dfLookup df (quantileCol q)
      rw [hval]
      exact dfLookup_assign_ne
        (hsep q q0 (List.mem_cons_of_mem q0 hqrest) (List.mem_cons_self q0 rest))

lemma insertSorted_perm (q : ℚ) (l : List ℚ) : List.Perm (insertSorted q l) (q :: l) := by
  induction l with
  | nil => exact List.Perm.refl _
  | cons x xs ih =>
    show List.Perm (if q ≤ x then q :: x :: xs else x :: insertSorted q xs) (q :: x :: xs)
    by_cases hqx : q ≤ x
    · rw [if_pos hqx]
    · rw [if_neg hqx]
      exact (ih.cons x).trans (List.Perm.swap q x xs)

lemma sortQ_perm (l : List ℚ) : List.Perm (sortQ l) l := by
  induction l with
  | nil => exact List.Perm.refl _
  | cons x xs ih =>
    exact (insertSorted_perm x (sortQ xs)).trans (ih.cons x)

end NixtlaClient

/-- C5 (amended): supplying both `level` and `quantiles` raises an error; a
quantile outside (0,1) raises; for in-range quantiles the requested levels are
`abs(int(100 - 200*q))` (Python `int`, truncation toward zero); on output each
quantile column is taken from the point-forecast column when `q = 0.5`, from
the lower bound column of level `|int(100-200q)|` when `int(100-200q) ≥ 1`
(in particular whenever `q < 0.5` with `q ≤ 0.495`), and from the upper bound
column when `int(100-200q) ≤ 0` and `q ≠ 0.5` (in particular for every
`q > 0.5`, and also for `0.495 < q < 0.5`); the emitted quantile-named column
is value-identical to that directly-requested level bound column. -/
theorem level_quantile_duality :
    (∀ l qs, _prepare_level_and_quantiles (some l) (some qs) =
      Except.error "You should provide `level` or `quantiles`, but not both.") ∧
    (∀ qs : List ℚ, (∃ q ∈ qs, q ≤ 0 ∨ 1 ≤ q) →
      _prepare_level_and_quantiles none (some qs) =
        Except.error "`quantiles` should be floats between 0 and 1.") ∧
    (∀ qs : List ℚ, (∀ q ∈ qs, 0 < q ∧ q < 1) →
      _prepare_level_and_quantiles none (some qs) =
        Except.ok (some (qs.map fun q => (((pyInt (100 - 200 * q)).natAbs : ℤ) : ℚ)),
          some qs)) ∧
    (∀ q : ℚ,
      (q = 1 / 2 → quantileCol q = "TimeGPT") ∧
      (q < 1 / 2 → 1 ≤ pyInt (100 - 200 * q) →
        quantileCol q = "TimeGPT-lo-" ++ Nat.repr (pyInt (100 - 200 * q)).natAbs) ∧
      (1 / 2 < q →
        quantileCol q = "TimeGPT-hi-" ++ Nat.repr (pyInt (100 - 200 * q)).natAbs) ∧
      (q ≠ 1 / 2 → pyInt (100 - 200 * q) ≤ 0 →
        quantileCol q = "TimeGPT-hi-" ++ Nat.repr (pyInt (100 - 200 * q)).natAbs)) ∧
    (∀ (df : Df) (qs : List ℚ),
      (∀ q ∈ qs, dfHasCol df (qColName q) = false) →
      (∀ q q', q ∈ qs → q' ∈ qs → quantileCol q ≠ qColName q') →
      (qs.map qColName).Nodup →
      ∀ q ∈ qs,
        dfLookup (_maybe_convert_level_to_quantiles df (some qs)) (qColName q) =
          dfLookup df (quantileCol q)) := by
  refine ⟨fun l qs => rfl, ?_, ?_, ?_, ?_⟩
  · intro qs ⟨q, hq, hbad⟩
    have hall : (qs.all fun q => decide (0 < q) && decide (q < 1)) = false := by
      rw [List.all_eq_false]
      refine ⟨q, hq, ?_⟩
      simp only [Bool.and_eq_true, decide_eq_true_eq]
      intro ⟨h0, h1⟩
      rcases hbad with hb | hb
      · exact absurd h0 (not_lt.mpr hb)
      · exact absurd h1 (not_lt.mpr hb)
    show (if (qs.all fun q => decide (0 < q) && decide (q < 1)) = true then _ else _) = _
    rw [hall]
    simp
  · intro qs hin
    have hall : (qs.all fun q => decide (0 < q) && decide (q < 1)) = true := by
      rw [List.all_eq_true]
      intro q hq
      simp only [Bool.and_eq_true, decide_eq_true_eq]
      exact hin q hq
    show (if (qs.all fun q => decide (0 < q) && decide (q < 1)) = true then _ else _) = _
    rw [hall]
    simp
  · intro q
    refine ⟨?_, ?_, ?_, ?_⟩
    · intro hq
      unfold quantileCol
      rw [if_pos hq]
    · intro hq hlv
      unfold quantileCol
      rw [if_neg (ne_of_lt hq)]
      show "TimeGPT-" ++ (if 0 < pyInt (100 - 200 * q) then "lo" else "hi") ++ "-" ++ _ = _
      rw [if_pos (by omega)]
      rfl
    · intro hq
      unfold quantileCol
      rw [if_neg (ne_of_gt hq)]
      have hneg : 100 - 200 * q < 0 := by linarith
      have hlv : pyInt (100 - 200 * q) ≤ 0 := by
        unfold pyInt
        rw [if_neg (not_le.mpr hneg)]
        rw [Int.ceil_le]
        push_cast
        linarith
      show "TimeGPT-" ++ (if 0 < pyInt (100 - 200 * q) then "lo" else "hi") ++ "-" ++ _ = _
      rw [if_neg (by omega)]
      rfl
    · intro hq hlv
      unfold quantileCol
      rw [if_neg hq]
      show "TimeGPT-" ++ (if 0 < pyInt (100 - 200 * q) then "lo" else "hi") ++ "-" ++ _ = _
      rw [if_neg (by omega)]
      rfl
  · intro df qs hfresh hsep hnodup q hq
    have hperm := sortQ_perm qs
    have hmemiff : ∀ x : ℚ, x ∈ sortQ qs ↔ x ∈ qs := fun x => hperm.mem_iff
    have hf : ∀ x ∈ sortQ qs, dfHasCol df (qColName x) = false :=
      fun x hx => hfresh x ((hmemiff x).mp hx)
    have hs : ∀ x x', x ∈ sortQ qs → x' ∈ sortQ qs → quantileCol x ≠ qColName x' :=
      fun x x' h1 h2 => hsep x x' ((hmemiff x).mp h1) ((hmemiff x').mp h2)
    have hn : ((sortQ qs).map qColName).Nodup :=
      (List.Perm.nodup_iff (hperm.map qColName)).mpr hnodup
    obtain ⟨hval, hmem⟩ := convertLoop_value (sortQ qs) df
      ((df.map Prod.fst).filter fun c =>
        !(strContains c "-lo-") && !(strContains c "-hi-"))
      hf hs hn q ((hmemiff q).mpr hq)
    show dfLookup (dfSelect
        (convertLoop (sortQ qs) df ((df.map Prod.fst).filter fun c =>
          !(strContains c "-lo-") && !(strContains c "-hi-"))).1
        (convertLoop (sortQ qs) df ((df.map Prod.fst).filter fun c =>
          !(strContains c "-lo-") && !(strContains c "-hi-"))).2)
        (qColName q) = dfLookup df (quantileCol q)
    rw [dfLookup_select hmem]
    exact hval

/-- C5 witness: quantiles `[0.1, 0.5, 0.9]` — both-arguments error, levels
`[80, 0, 80]`, source columns `lo-80` / point forecast / `hi-80`, and the
emitted `TimeGPT-q-10` column equals the `TimeGPT-lo-80` column. -/
theorem level_quantile_duality_witness :
    _prepare_level_and_quantiles (some [(80 : ℚ)]) (some [1 / 10]) =
      Except.error "You should provide `level` or `quantiles`, but not both." ∧
    (∀ q ∈ ([1 / 10, 1 / 2, 9 / 10] : List ℚ), 0 < q ∧ q < 1) ∧
    _prepare_level_and_quantiles none (some [1 / 10, 1 / 2, 9 / 10]) =
      Except.ok (some [80, 0, 80], some [1 / 10, 1 / 2, 9 / 10]) ∧
    quantileCol (1 / 10) = "TimeGPT-lo-80" ∧
    quantileCol (1 / 2) = "TimeGPT" ∧
    quantileCol (9 / 10) = "TimeGPT-hi-80" ∧
    dfLookup
      (_maybe_convert_level_to_quantiles
        [("TimeGPT", [10]), ("TimeGPT-lo-80", [1]), ("TimeGPT-hi-80", [2])]
        (some [1 / 10, 1 / 2, 9 / 10]))
      "TimeGPT-q-10" = [1] := by
  have big := level_quantile_duality
  have hpy10 : pyInt (100 - 200 * ((1 : ℚ) / 10)) = 80 := by
    unfold pyInt
    rw [if_pos (by norm_num)]
    rw [show (100 - 200 * ((1 : ℚ) / 10)) = 80 by norm_num]
    rw [Int.floor_eq_iff]
    constructor <;> norm_num
  have hpy50 : pyInt (100 - 200 * ((1 : ℚ) / 2)) = 0 := by
    unfold pyInt
    rw [if_pos (by norm_num)]
    rw [show (100 - 200 * ((1 : ℚ) / 2)) = 0 by norm_num]
    rw [Int.floor_eq_iff]
    constructor <;> norm_num
  have hpy90 : pyInt (100 - 200 * ((9 : ℚ) / 10)) = -80 := by
    unfold pyInt
    rw [if_neg (by norm_num)]
    rw [show (100 - 200 * ((9 : ℚ) / 10)) = -80 by norm_num]
    rw [Int.ceil_eq_iff]
    constructor <;> norm_num
  have hpyq10 : pyInt (((1 : ℚ) / 10) * 100) = 10 := by
    unfold pyInt
    rw [if_pos (by norm_num)]
    rw [show (((1 : ℚ) / 10) * 100) = 10 by norm_num]
    rw [Int.floor_eq_iff]
    constructor <;> norm_num
  have hpyq50 : pyInt (((1 : ℚ) / 2) * 100) = 50 := by
    unfold pyInt
    rw [if_pos (by norm_num)]
    rw [show (((1 : ℚ) / 2) * 100) = 50 by norm_num]
    rw [Int.floor_eq_iff]
    constructor <;> norm_num
  have hpyq90 : pyInt (((9 : ℚ) / 10) * 100) = 90 := by
    unfold pyInt
    rw [if_pos (by norm_num)]
    rw [show (((9 : ℚ) / 10) * 100) = 90 by norm_num]
    rw [Int.floor_eq_iff]
    constructor <;> norm_num
  have hqc10 : qColName (1 / 10) = "TimeGPT-q-10" := by
    unfold qColName intStr
    rw [hpyq10]
    norm_num
    rfl
  have hqc50 : qColName (1 / 2) = "TimeGPT-q-50" := by
    unfold qColName intStr
    rw [hpyq50]
    norm_num
    rfl
  have hqc90 : qColName (9 / 10) = "TimeGPT-q-90" := by
    unfold qColName intStr
    rw [hpyq90]
    norm_num
    rfl
  have hcol10 : quantileCol (1 / 10) = "TimeGPT-lo-80" := by
    have happ := (big.2.2.2.1 (1 / 10)).2.1 (by norm_num) (by rw [hpy10]; norm_num)
    rw [happ, hpy10]
    rfl
  have hcol50 : quantileCol (1 / 2) = "TimeGPT" := (big.2.2.2.1 (1 / 2)).1 rfl
  have hcol90 : quantileCol (9 / 10) = "TimeGPT-hi-80" := by
    have happ := (big.2.2.2.1 (9 / 10)).2.2.1 (by norm_num)
    rw [happ, hpy90]
    rfl
  have hin : ∀ q ∈ ([1 / 10, 1 / 2, 9 / 10] : List ℚ), 0 < q ∧ q < 1 := by
    intro q hq
    rcases (show q = 1 / 10 ∨ q = 1 / 2 ∨ q = 9 / 10 by simpa using hq) with
      rfl | rfl | rfl <;> constructor <;> norm_num
  have hok : _prepare_level_and_quantiles none (some [1 / 10, 1 / 2, 9 / 10]) =
      Except.ok (some [80, 0, 80], some [1 / 10, 1 / 2, 9 / 10]) := by
    rw [big.2.2.1 [1 / 10, 1 / 2, 9 / 10] hin]
    have hmap : ([1 / 10, 1 / 2, 9 / 10] : List ℚ).map
        (fun q => (((pyInt (100 - 200 * q)).natAbs : ℤ) : ℚ)) = [80, 0, 80] := by
      simp only [List.map_cons, List.map_nil]
      rw [hpy10, hpy50, hpy90]
      norm_num
    rw [hmap]
  have hfresh : ∀ q ∈ ([1 / 10, 1 / 2, 9 / 10] : List ℚ),
      dfHasCol [("TimeGPT", [(10 : ℚ)]), ("TimeGPT-lo-80", [1]), ("TimeGPT-hi-80", [2])]
        (qColName q) = false := by
    intro q hq
    rcases (show q = 1 / 10 ∨ q = 1 / 2 ∨ q = 9 / 10 by simpa using hq) with
      rfl | rfl | rfl
    · rw [hqc10]; rfl
    · rw [hqc50]; rfl
    · rw [hqc90]; rfl
  have hsep : ∀ q q', q ∈ ([1 / 10, 1 / 2, 9 / 10] : List ℚ) →
      q' ∈ ([1 / 10, 1 / 2, 9 / 10] : List ℚ) → quantileCol q ≠ qColName q' := by
    intro q q' h1 h2
    rcases (show q = 1 / 10 ∨ q = 1 / 2 ∨ q = 9 / 10 by simpa using h1) with
      rfl | rfl | rfl <;>
      rcases (show q' = 1 / 10 ∨ q' = 1 / 2 ∨ q' = 9 / 10 by simpa using h2) with
        rfl | rfl | rfl <;>
      simp only [hcol10, hcol50, hcol90, hqc10, hqc50, hqc90] <;>
      decide
  have hnodup : (([1 / 10, 1 / 2, 9 / 10] : List ℚ).map qColName).Nodup := by
    simp only [List.map_cons, List.map_nil]
    rw [hqc10, hqc50, hqc90]
    decide
  refine ⟨rfl, hin, hok, hcol10, hcol50, hcol90, ?_⟩
  have happ := big.2.2.2.2
    [("TimeGPT", [(10 : ℚ)]), ("TimeGPT-lo-80", [1]), ("TimeGPT-hi-80", [2])]
    [1 / 10, 1 / 2, 9 / 10] hfresh hsep hnodup (1 / 10)
    (List.mem_cons_self _ _)
  rw [hqc10] at happ
  rw [happ, hcol10]
  rfl
